import Mathlib

/-!
Shallow embedding of the `Minesweeper` class from `src/Minesweeper.ts`
(discord.js-minesweeper).

Strings are modelled as `List Char` (`Str`), the matrix as a list of rows of
cell symbols.  The JavaScript random source `rng : () => number`, which must
return numbers in `[0, 1)`, is modelled as a stream of exact rationals given
by numerator/denominator pairs (`Frac`); the only use the code makes of a
drawn value `q` is `Math.floor(q * n)`, which for `q = a/b` is exactly
`a * n / b` in natural-number division.  The rejection-sampling loop of
`plantMines` and the recursive flood fill of `revealSurroundings` need not
terminate in general, so both take an explicit fuel parameter; running out
of fuel is reported as a distinguished outcome, as is the runtime TypeError
that `revealFirst` hits when it indexes an empty `safeCells` array.
-/

/-- Cell symbols are character sequences, as JavaScript strings are. -/
abbrev Str := List Char

/-- Literal helper: the character sequence of a string literal. -/
def strLit (s : String) : Str := s.data

/-- A row of the mine field. -/
abbrev Row := List Str

/-- The mine field matrix. -/
abbrev MatrixG := List Row

/-- A drawn random value `a/b`; the contract `rng() ∈ [0,1)` is `a < b`. -/
abbrev Frac := Nat × Nat

/-- `Math.floor(q * n)` for `q = a/b ≥ 0`: exactly `a * n / b`. -/
def floorMul (f : Frac) (n : Nat) : Nat := f.1 * n / f.2

/-- Coordinates of a safe cell (`interface SafeCell`); `x` row, `y` column.
The fields are integers because `revealFirst` returns the sentinel
`{ x: -1, y: -1 }` when first-cell reveal is disabled. -/
structure SafeCell where
  x : Int
  y : Int
deriving DecidableEq, Repr

/-- Cell types (`interface CellTypes`). -/
structure CellTypes where
  mine : Str
  numbers : List Str
deriving DecidableEq, Repr

/-- The `returnType` option. -/
inductive RetType where
  | emoji : RetType
  | code : RetType
  | matrix : RetType
deriving DecidableEq, Repr

/-- Partial options record (`interface MinesweeperOpts`).  The `rng` field
is a stream of random draws. -/
structure MinesweeperOpts where
  rows : Option Nat
  columns : Option Nat
  mines : Option Nat
  emote : Option Str
  revealFirstCell : Option Bool
  zeroFirstCell : Option Bool
  spaces : Option Bool
  rng : Option (Nat → Frac)
  returnType : Option RetType

/-- Options record with every field absent. -/
def noOpts : MinesweeperOpts :=
  { rows := none, columns := none, mines := none, emote := none,
    revealFirstCell := none, zeroFirstCell := none, spaces := none,
    rng := none, returnType := none }

/-- JavaScript `opts?.field || default` for numbers: `0` is falsy. -/
def orDefaultNat : Option Nat → Nat → Nat
  | none, d => d
  | some n, d => if n = 0 then d else n

/-- JavaScript `opts?.field || default` for strings: `""` is falsy. -/
def orDefaultStr : Option Str → Str → Str
  | none, d => d
  | some s, d => if s = [] then d else s

/-- `spoilerize(str)`: wraps a name in Discord spoiler bars, with or without
spaces depending on the `spaces` flag. -/
def spoilerize (spaces : Bool) (s : Str) : Str :=
  if spaces then strLit "|| :" ++ s ++ strLit ": ||"
  else strLit "||:" ++ s ++ strLit ":||"

/-- The nine number-emote names used for counts 0–8. -/
def numberNames : List Str :=
  [strLit "zero", strLit "one", strLit "two", strLit "three", strLit "four",
   strLit "five", strLit "six", strLit "seven", strLit "eight"]

/-- The `types` field built by the constructor. -/
def mkTypes (spaces : Bool) (emote : Str) : CellTypes :=
  { mine := spoilerize spaces emote,
    numbers := numberNames.map (spoilerize spaces) }

/-- State of a `Minesweeper` instance.  `rng`/`rngIdx` model the random
source as a stream plus a cursor. -/
structure Minesweeper where
  rows : Nat
  columns : Nat
  mines : Nat
  emote : Str
  spaces : Bool
  revealFirstCell : Bool
  zeroFirstCell : Bool
  returnType : RetType
  types : CellTypes
  matrix : MatrixG
  safeCells : List SafeCell
  rng : Nat → Frac
  rngIdx : Nat

/-- The constructor.  `envRandom` stands for the ambient `Math.random`
stream used when no `rng` option is supplied. -/
def Minesweeper.ofOpts (opts : MinesweeperOpts) (envRandom : Nat → Frac) :
    Minesweeper :=
  let spaces := opts.spaces.getD true
  let emote := orDefaultStr opts.emote (strLit "boom")
  { rows := orDefaultNat opts.rows 9
    columns := orDefaultNat opts.columns 9
    mines := orDefaultNat opts.mines 10
    emote := emote
    spaces := spaces
    revealFirstCell := opts.revealFirstCell.getD false
    zeroFirstCell := opts.zeroFirstCell.getD true
    returnType := opts.returnType.getD RetType.emoji
    types := mkTypes spaces emote
    matrix := []
    safeCells := []
    rng := opts.rng.getD envRandom
    rngIdx := 0 }

/-- One call of `this.rng()`. -/
def draw (g : Minesweeper) : Frac × Minesweeper :=
  (g.rng g.rngIdx, { g with rngIdx := g.rngIdx + 1 })

/-- `this.matrix[x][y]` for natural indices; out-of-range reads give the
empty string (never a valid cell symbol). -/
def cellN (m : MatrixG) (x y : Nat) : Str := (m.getD x []).getD y []

/-- `this.matrix[x][y] = v` for natural indices (in-range in all uses). -/
def setN (m : MatrixG) (x y : Nat) (v : Str) : MatrixG :=
  m.set x ((m.getD x []).set y v)

/-- `this.matrix[i][j]` for integer indices. -/
def cellI (m : MatrixG) (i j : Int) : Str :=
  if 0 ≤ i ∧ 0 ≤ j then cellN m i.toNat j.toNat else []

/-- `this.matrix[i][j] = v` for integer indices. -/
def setI (m : MatrixG) (i j : Int) (v : Str) : MatrixG :=
  if 0 ≤ i ∧ 0 ≤ j then setN m i.toNat j.toNat v else m

/-- `generateEmptyMatrix()`: pushes `rows` rows of `columns` copies of
`types.numbers[0]`. -/
def generateEmptyMatrix (g : Minesweeper) : Minesweeper :=
  { g with matrix :=
      (g.matrix ++ List.replicate g.rows
        (List.replicate g.columns (g.types.numbers.getD 0 []))) }

/-- The loop body of `plantMines()`, with `remaining` mines still to plant
and explicit fuel for the rejection-sampling retries. -/
def plantMinesGo : Nat → Nat → Minesweeper → Option Minesweeper
  | 0, _, g => some g
  | _ + 1, 0, _ => none
  | r + 1, fuel + 1, g =>
    let p := draw g
    let p2 := draw p.2
    let x := floorMul p.1 g.rows
    let y := floorMul p2.1 g.columns
    if cellN p2.2.matrix x y = g.types.mine then
      plantMinesGo (r + 1) fuel p2.2
    else
      plantMinesGo r fuel ({ p2.2 with matrix := setN p2.2.matrix x y g.types.mine })

/-- `plantMines()`. -/
def plantMines (fuel : Nat) (g : Minesweeper) : Option Minesweeper :=
  plantMinesGo g.mines fuel g

/-- The `counter` accumulated by `getNumberOfMines(x, y)`: one indicator
per in-range Moore neighbour holding a mine, guarded exactly as in the
source by `hasTop`/`hasBottom`/`hasLeft`/`hasRight`. -/
def mineCounter (g : Minesweeper) (x y : Nat) : Nat :=
  let hasLeft := decide (0 < y)
  let hasRight := decide (y < g.columns - 1)
  let hasTop := decide (0 < x)
  let hasBottom := decide (x < g.rows - 1)
  ((hasTop && hasLeft) && decide (cellN g.matrix (x - 1) (y - 1) = g.types.mine)).toNat +
  (hasTop && decide (cellN g.matrix (x - 1) y = g.types.mine)).toNat +
  ((hasTop && hasRight) && decide (cellN g.matrix (x - 1) (y + 1) = g.types.mine)).toNat +
  (hasLeft && decide (cellN g.matrix x (y - 1) = g.types.mine)).toNat +
  (hasRight && decide (cellN g.matrix x (y + 1) = g.types.mine)).toNat +
  ((hasBottom && hasLeft) && decide (cellN g.matrix (x + 1) (y - 1) = g.types.mine)).toNat +
  (hasBottom && decide (cellN g.matrix (x + 1) y = g.types.mine)).toNat +
  ((hasBottom && hasRight) && decide (cellN g.matrix (x + 1) (y + 1) = g.types.mine)).toNat

/-- `getNumberOfMines(x, y)`: the symbol for cell `(x, y)` computed from the
current matrix; mines stay mines, other cells get `numbers[counter]`. -/
def getNumberOfMines (g : Minesweeper) (x y : Nat) : Str :=
  if cellN g.matrix x y = g.types.mine then g.types.mine
  else g.types.numbers.getD (mineCounter g x y) []

/-- Claim-side notion: the eight Moore-neighbour coordinates of `(x, y)`,
as integers so that clipping at the grid boundary is explicit. -/
def mooreNeighbors (x y : Nat) : List (Int × Int) :=
  [((x : Int) - 1, (y : Int) - 1), ((x : Int) - 1, (y : Int)), ((x : Int) - 1, (y : Int) + 1),
   ((x : Int), (y : Int) - 1), ((x : Int), (y : Int) + 1),
   ((x : Int) + 1, (y : Int) - 1), ((x : Int) + 1, (y : Int)), ((x : Int) + 1, (y : Int) + 1)]

/-- Claim-side notion: the exact number of mine cells among the up-to-8
Moore neighbours of `(x, y)`, clipped at the grid boundary. -/
def mooreMineCount (g : Minesweeper) (x y : Nat) : Nat :=
  (mooreNeighbors x y).countP (fun ij =>
    decide (0 ≤ ij.1 ∧ ij.1 < (g.rows : Int) ∧ 0 ≤ ij.2 ∧ ij.2 < (g.columns : Int)) &&
    decide (cellI g.matrix ij.1 ij.2 = g.types.mine))

/-- Row-level helper for the indexed `map` in `populate()`. -/
def mapRowGo (f : Nat → Str → Str) : Nat → Row → Row
  | _, [] => []
  | y, c :: cs => f y c :: mapRowGo f (y + 1) cs

/-- Matrix-level helper for the indexed `map` in `populate()`. -/
def mapGridGo (f : Nat → Nat → Str → Str) : Nat → MatrixG → MatrixG
  | _, [] => []
  | x, r :: rs => mapRowGo (f x) 0 r :: mapGridGo f (x + 1) rs

/-- The safe cells recorded by one row during `populate()`'s scan. -/
def safeRowGo (mine : Str) (x : Nat) : Nat → Row → List SafeCell
  | _, [] => []
  | y, c :: cs =>
    (if c = mine then [] else [⟨(x : Int), (y : Int)⟩]) ++ safeRowGo mine x (y + 1) cs

/-- The safe cells recorded by the whole scan, in row-major order. -/
def safeGridGo (mine : Str) : Nat → MatrixG → List SafeCell
  | _, [] => []
  | x, r :: rs => safeRowGo mine x 0 r ++ safeGridGo mine (x + 1) rs

/-- `populate()`: replaces every cell by `getNumberOfMines` of the old
matrix and appends the non-mine coordinates to `safeCells`. -/
def populate (g : Minesweeper) : Minesweeper :=
  { g with
    matrix := mapGridGo (fun x y _ => getNumberOfMines g x y) 0 g.matrix
    safeCells := g.safeCells ++ safeGridGo g.types.mine 0 g.matrix }

/-- `getTextRepresentation()`: rows joined by the separator, then newlines. -/
def getTextRepresentation (g : Minesweeper) : Str :=
  let separator : Str := if g.spaces then strLit " " else []
  List.intercalate (strLit "\n") (g.matrix.map (fun r => List.intercalate separator r))

/-- `str.slice(2, -2)`: drop two characters at each end. -/
def slice2 (s : Str) : Str := (s.drop 2).take (s.length - 4)

/-- Does a two-bar spoiler marker start here? -/
def startsWithBars : Str → Bool
  | '|' :: '|' :: _ => true
  | _ => false

/-- `str.includes("||")`: the check behind `isSpoiler`. -/
def hasBars : Str → Bool
  | [] => false
  | c :: rest => startsWithBars (c :: rest) || hasBars rest

/-- Integer range `[lo, hi]`, empty when `hi < lo`. -/
def intRange (lo hi : Int) : List Int :=
  (List.range (hi + 1 - lo).toNat).map (fun k => lo + Int.ofNat k)

/-- The in-bounds Moore box around `c` visited by `revealSurroundings`,
in loop order. -/
def boxPairs (g : Minesweeper) (c : SafeCell) : List (Int × Int) :=
  let xLower := max 0 (c.x - 1)
  let yLower := max 0 (c.y - 1)
  let xUpper := min ((g.rows : Int) - 1) (c.x + 1)
  let yUpper := min ((g.columns : Int) - 1) (c.y + 1)
  (intRange xLower xUpper).flatMap (fun i => (intRange yLower yUpper).map (fun j => (i, j)))

/-- The double loop of `revealSurroundings`: strips every spoiler cell in
the visited list and collects the zero cells found, in visit order. -/
def sweepGo (g : Minesweeper) : List (Int × Int) → Minesweeper × List SafeCell
  | [] => (g, [])
  | ij :: rest =>
    if hasBars (cellI g.matrix ij.1 ij.2) then
      let isZero := cellI g.matrix ij.1 ij.2 = g.types.numbers.getD 0 []
      let g' := { g with matrix := setI g.matrix ij.1 ij.2 (slice2 (cellI g.matrix ij.1 ij.2)) }
      let res := sweepGo g' rest
      (res.1, (if isZero then [⟨ij.1, ij.2⟩] else []) ++ res.2)
    else sweepGo g rest

mutual

/-- `revealSurroundings(c, recurse)`, with fuel bounding recursion depth. -/
def revealSurroundings (fuel : Nat) (g : Minesweeper) (c : SafeCell)
    (recurse : Bool) : Option Minesweeper :=
  match fuel with
  | 0 => none
  | fuel' + 1 =>
    let sw := sweepGo g (boxPairs g c)
    if recurse then revealSurrList fuel' sw.1 sw.2 else some sw.1
termination_by (fuel, 0)

/-- `zeroCells.forEach(c => this.revealSurroundings(c, true))`. -/
def revealSurrList (fuel : Nat) (g : Minesweeper) (cs : List SafeCell) :
    Option Minesweeper :=
  match cs with
  | [] => some g
  | c :: rest =>
    match revealSurroundings fuel g c true with
    | none => none
    | some g' => revealSurrList fuel g' rest
termination_by (fuel, cs.length + 1)

end

/-- A structurally recursive twin of `revealSurroundings` (the pending
zero cells are folded over instead of recursed on), used to evaluate
concrete runs definitionally. -/
def revealSurrExec : Nat → Minesweeper → SafeCell → Bool → Option Minesweeper
  | 0, _, _, _ => none
  | fuel + 1, g, c, recurse =>
    let sw := sweepGo g (boxPairs g c)
    if recurse then
      sw.2.foldl (fun acc c2 =>
        match acc with
        | none => none
        | some g2 => revealSurrExec fuel g2 c2 true) (some sw.1)
    else some sw.1

/-- Outcome of a stateful operation: a value, the modelled runtime fault of
indexing past the end of `safeCells`, or fuel exhaustion. -/
inductive RunRes (α : Type) where
  | ok : α → RunRes α
  | crash : RunRes α
  | fuelOut : RunRes α

/-- `revealFirst()`. -/
def revealFirst (fuel : Nat) (g : Minesweeper) : RunRes (SafeCell × Minesweeper) :=
  if !g.revealFirstCell then .ok (⟨-1, -1⟩, g)
  else
    let zeroCells := g.safeCells.filter
      (fun c => cellI g.matrix c.x c.y = g.types.numbers.getD 0 [])
    if g.zeroFirstCell && decide (0 < zeroCells.length) then
      let p := draw g
      match zeroCells[floorMul p.1 zeroCells.length]? with
      | none => .crash
      | some safeCell =>
        let cell := cellI p.2.matrix safeCell.x safeCell.y
        let g2 := { p.2 with matrix := setI p.2.matrix safeCell.x safeCell.y (slice2 cell) }
        match revealSurroundings fuel g2 safeCell true with
        | none => .fuelOut
        | some g3 => .ok (⟨safeCell.x, safeCell.y⟩, g3)
    else
      let p := draw g
      match g.safeCells[floorMul p.1 g.safeCells.length]? with
      | none => .crash
      | some safeCell =>
        let cell := cellI p.2.matrix safeCell.x safeCell.y
        let g2 := { p.2 with matrix := setI p.2.matrix safeCell.x safeCell.y (slice2 cell) }
        .ok (⟨safeCell.x, safeCell.y⟩, g2)

/-- Twin of `revealFirst` built on the executable reveal. -/
def revealFirstExec (fuel : Nat) (g : Minesweeper) : RunRes (SafeCell × Minesweeper) :=
  if !g.revealFirstCell then .ok (⟨-1, -1⟩, g)
  else
    let zeroCells := g.safeCells.filter
      (fun c => cellI g.matrix c.x c.y = g.types.numbers.getD 0 [])
    if g.zeroFirstCell && decide (0 < zeroCells.length) then
      let p := draw g
      match zeroCells[floorMul p.1 zeroCells.length]? with
      | none => .crash
      | some safeCell =>
        let cell := cellI p.2.matrix safeCell.x safeCell.y
        let g2 := { p.2 with matrix := setI p.2.matrix safeCell.x safeCell.y (slice2 cell) }
        match revealSurrExec fuel g2 safeCell true with
        | none => .fuelOut
        | some g3 => .ok (⟨safeCell.x, safeCell.y⟩, g3)
    else
      let p := draw g
      match g.safeCells[floorMul p.1 g.safeCells.length]? with
      | none => .crash
      | some safeCell =>
        let cell := cellI p.2.matrix safeCell.x safeCell.y
        let g2 := { p.2 with matrix := setI p.2.matrix safeCell.x safeCell.y (slice2 cell) }
        .ok (⟨safeCell.x, safeCell.y⟩, g2)

/-- A value returned by `start()`: a rendered string or the raw matrix. -/
inductive OutVal where
  | str : Str → OutVal
  | grid : MatrixG → OutVal
deriving DecidableEq, Repr

/-- `start()`: density check, then the four pipeline phases and the
serialization switch.  `ok (none, g)` is the `null` return. -/
def start (fuel : Nat) (g : Minesweeper) : RunRes (Option OutVal × Minesweeper) :=
  if g.rows * g.columns ≤ g.mines * 2 then .ok (none, g)
  else
    match plantMines fuel (generateEmptyMatrix g) with
    | none => .fuelOut
    | some g1 =>
      match revealFirst fuel (populate g1) with
      | .crash => .crash
      | .fuelOut => .fuelOut
      | .ok (_, g3) =>
        .ok (some (match g3.returnType with
          | .emoji => .str (getTextRepresentation g3)
          | .code => .str (strLit "```" ++ getTextRepresentation g3 ++ strLit "```")
          | .matrix => .grid g3.matrix), g3)

/-! Derived notions used to state and prove the claims. -/

/-- The matrix has exactly `R` rows of `C` cells each. -/
def gridShape (m : MatrixG) (R C : Nat) : Prop :=
  m.length = R ∧ ∀ r ∈ m, r.length = C

/-- Total number of cells of the matrix holding symbol `tok`. -/
def mineTotal (m : MatrixG) (tok : Str) : Nat :=
  (m.map (fun r => r.countP (fun c => decide (c = tok)))).sum

/-- The random stream obeys the documented contract `rng() ∈ [0, 1)`. -/
def rngOk (g : Minesweeper) : Prop :=
  ∀ i, (g.rng i).1 < (g.rng i).2

/-- The `SafeCell` with the given natural coordinates. -/
def natCell (x y : Nat) : SafeCell := ⟨(x : Int), (y : Int)⟩

/-- The matrix `m` with every cell in `B` replaced by its stripped
(unmasked) form; describes intermediate states of the reveal phase. -/
def stripB (m : MatrixG) (B : Nat → Nat → Bool) : MatrixG :=
  mapGridGo (fun x y c => if B x y then slice2 c else c) 0 m

/-- `B` only strips in-bounds non-mine cells of `m`. -/
def strippedInv (m : MatrixG) (R C : Nat) (ts : CellTypes) (B : Nat → Nat → Bool) : Prop :=
  ∀ x y, B x y = true → x < R ∧ y < C ∧ cellN m x y ≠ ts.mine

/-- The whole in-bounds Moore box of `(x, y)` is contained in `B`. -/
def boxClosed (R C : Nat) (B : Nat → Nat → Bool) (x y : Nat) : Prop :=
  ∀ u v : Nat, u < R → v < C → ((u : Int) - (x : Int)).natAbs ≤ 1 →
    ((v : Int) - (y : Int)).natAbs ≤ 1 → B u v = true

/-- Claim-side notion: `q` is reachable from `p` by a path of
Chebyshev-distance-1 steps through cells of `m` holding the zero symbol
`z` (the endpoint of every step is in bounds and zero-valued). -/
inductive ZReach (m : MatrixG) (R C : Nat) (z : Str) (o : Nat × Nat) : Nat × Nat → Prop where
  | refl : ZReach m R C z o o
  | step (q r : Nat × Nat) : ZReach m R C z o q →
      ((q.1 : Int) - (r.1 : Int)).natAbs ≤ 1 → ((q.2 : Int) - (r.2 : Int)).natAbs ≤ 1 →
      q ≠ r → r.1 < R → r.2 < C → cellN m r.1 r.2 = z → ZReach m R C z o r

/-- Claim-side notion: the set of cells that the flood reveal starting at
`o` must unmask — every cell of the zero region reachable from `o`
together with every in-bounds cell adjacent to that region. -/
def revealTarget (m : MatrixG) (R C : Nat) (z : Str) (o : Nat × Nat) (q : Nat × Nat) : Prop :=
  q.1 < R ∧ q.2 < C ∧ ∃ p, ZReach m R C z o p ∧
    ((p.1 : Int) - (q.1 : Int)).natAbs ≤ 1 ∧ ((p.2 : Int) - (q.2 : Int)).natAbs ≤ 1

/-- Add one cell to a strip set. -/
def insertB (B : Nat → Nat → Bool) (x0 y0 : Nat) : Nat → Nat → Bool :=
  fun x y => B x y || (decide (x = x0) && decide (y = y0))

/-- The strip set of the cells listed in `pairs` (integer coordinates). -/
def memPairsB (pairs : List (Int × Int)) : Nat → Nat → Bool :=
  fun x y => pairs.contains ((x : Int), (y : Int))

/-- Union of strip sets. -/
def unionB (B1 B2 : Nat → Nat → Bool) : Nat → Nat → Bool :=
  fun x y => B1 x y || B2 x y

/-- The token facts the reveal phase relies on: masked tokens carry the
spoiler bars, stripped count tokens do not, and the ten tokens are
pairwise distinguishable. -/
def TypesOk (ts : CellTypes) : Prop :=
  hasBars ts.mine = true ∧
  (∀ k, k ≤ 8 → hasBars (ts.numbers.getD k []) = true) ∧
  (∀ k, k ≤ 8 → hasBars (slice2 (ts.numbers.getD k [])) = false) ∧
  (∀ k, k ≤ 8 → slice2 (ts.numbers.getD k []) ≠ ts.mine) ∧
  (∀ k, k ≤ 8 → ts.numbers.getD k [] ≠ ts.mine) ∧
  (∀ j k, j ≤ 8 → k ≤ 8 → ts.numbers.getD j [] = ts.numbers.getD k [] → j = k)

/-- Every cell symbol of `m` is a masked mine or a masked count token. -/
def tokensOnly (m : MatrixG) (R C : Nat) (ts : CellTypes) : Prop :=
  ∀ x y, x < R → y < C →
    cellN m x y = ts.mine ∨ ∃ k, k ≤ 8 ∧ cellN m x y = ts.numbers.getD k []

/-- No in-bounds Moore neighbour of a zero-symbol cell holds a mine. -/
def zeroIsolated (m : MatrixG) (R C : Nat) (ts : CellTypes) : Prop :=
  ∀ x y, x < R → y < C → cellN m x y = ts.numbers.getD 0 [] →
    ∀ u v : Nat, u < R → v < C → ((u : Int) - (x : Int)).natAbs ≤ 1 →
      ((v : Int) - (y : Int)).natAbs ≤ 1 → cellN m u v ≠ ts.mine

/-- Specification of one `revealSurroundings(c, true)` call on a state that
strips exactly `B` from the base matrix `m`: the call extends the strip set
within the reveal target of `c`, strips the whole box of `c`, and leaves no
unprocessed zero cell behind except those still pending in `E`. -/
def SurrSpec (m : MatrixG) (R C : Nat) (fuel : Nat) : Prop :=
  ∀ (B : Nat → Nat → Bool) (g : Minesweeper) (c : SafeCell) (E : List SafeCell)
    (g' : Minesweeper),
    g.matrix = stripB m B →
    g.rows = R → g.columns = C →
    gridShape m R C →
    TypesOk g.types →
    tokensOnly m R C g.types →
    zeroIsolated m R C g.types →
    strippedInv m R C g.types B →
    0 ≤ c.x → c.x < (R : Int) → 0 ≤ c.y → c.y < (C : Int) →
    cellI m c.x c.y = g.types.numbers.getD 0 [] →
    B c.x.toNat c.y.toNat = true →
    (∀ x y, B x y = true → cellN m x y = g.types.numbers.getD 0 [] →
      ¬ boxClosed R C B x y → natCell x y = c ∨ natCell x y ∈ E) →
    revealSurroundings fuel g c true = some g' →
    ∃ B', g' = { g with matrix := stripB m B' } ∧
      (∀ x y, B x y = true → B' x y = true) ∧
      strippedInv m R C g.types B' ∧
      (∀ u v : Nat, u < R → v < C → ((u : Int) - c.x).natAbs ≤ 1 →
        ((v : Int) - c.y).natAbs ≤ 1 → B' u v = true) ∧
      (∀ x y, B' x y = true → cellN m x y = g.types.numbers.getD 0 [] →
        ¬ boxClosed R C B' x y → natCell x y ∈ E) ∧
      (∀ x y, B' x y = true → B x y = true ∨
        revealTarget m R C (g.types.numbers.getD 0 []) (c.x.toNat, c.y.toNat) (x, y))

/-- Specification of `revealSurrList` on a worklist `cs` of already-stripped
zero cells, with external pending list `E`. -/
def ListSpec (m : MatrixG) (R C : Nat) (fuel : Nat) : Prop :=
  ∀ (B : Nat → Nat → Bool) (g : Minesweeper) (cs E : List SafeCell)
    (g' : Minesweeper),
    g.matrix = stripB m B →
    g.rows = R → g.columns = C →
    gridShape m R C →
    TypesOk g.types →
    tokensOnly m R C g.types →
    zeroIsolated m R C g.types →
    strippedInv m R C g.types B →
    (∀ c ∈ cs, 0 ≤ c.x ∧ c.x < (R : Int) ∧ 0 ≤ c.y ∧ c.y < (C : Int) ∧
      cellI m c.x c.y = g.types.numbers.getD 0 [] ∧ B c.x.toNat c.y.toNat = true) →
    (∀ x y, B x y = true → cellN m x y = g.types.numbers.getD 0 [] →
      ¬ boxClosed R C B x y → natCell x y ∈ cs ∨ natCell x y ∈ E) →
    revealSurrList fuel g cs = some g' →
    ∃ B', g' = { g with matrix := stripB m B' } ∧
      (∀ x y, B x y = true → B' x y = true) ∧
      strippedInv m R C g.types B' ∧
      (∀ x y, B' x y = true → cellN m x y = g.types.numbers.getD 0 [] →
        ¬ boxClosed R C B' x y → natCell x y ∈ E) ∧
      (∀ x y, B' x y = true → B x y = true ∨ ∃ c ∈ cs,
        revealTarget m R C (g.types.numbers.getD 0 []) (c.x.toNat, c.y.toNat) (x, y))

/-! Concrete sample configurations used by witnesses and counterexamples. -/

/-- A deterministic random stream, constantly `1/2`. -/
def halfRng : Nat → Frac := fun _ => (1, 2)

/-- A deterministic random stream, constantly `0`. -/
def zeroRng : Nat → Frac := fun _ => (0, 1)

/-- Options for the spec's refused example: 3×3 with 5 mines. -/
def optsDense : MinesweeperOpts :=
  { noOpts with
    rows := some 3
    columns := some 3
    mines := some 5
    rng := some halfRng }

/-- Options passing every falsy value that the constructor must replace. -/
def optsFalsy : MinesweeperOpts :=
  { noOpts with
    rows := some 0
    columns := some 0
    mines := some 0
    emote := some [] }

/-- A fully-built instance with first-cell reveal enabled but an empty
`safeCells` list: the state `revealFirst` must guard against. -/
def gEmptySafe : Minesweeper :=
  { rows := 2, columns := 2, mines := 1, emote := strLit "boom", spaces := true,
    revealFirstCell := true, zeroFirstCell := false, returnType := RetType.emoji,
    types := mkTypes true (strLit "boom"), matrix := [], safeCells := [],
    rng := halfRng, rngIdx := 0 }

/-- A fully-built instance with first-cell reveal disabled. -/
def gNoReveal : Minesweeper :=
  { rows := 2, columns := 2, mines := 1, emote := strLit "boom", spaces := true,
    revealFirstCell := false, zeroFirstCell := true, returnType := RetType.emoji,
    types := mkTypes true (strLit "boom"),
    matrix := [[spoilerize true (strLit "one"), spoilerize true (strLit "boom")],
               [spoilerize true (strLit "one"), spoilerize true (strLit "one")]],
    safeCells := [⟨0, 0⟩, ⟨1, 0⟩, ⟨1, 1⟩],
    rng := halfRng, rngIdx := 0 }

/-- Options for the C1 counterexample: the mine emote collides with the
count token "one". -/
def optsEmoteOne : MinesweeperOpts :=
  { noOpts with
    rows := some 2
    columns := some 2
    mines := some 1
    emote := some (strLit "one")
    rng := some halfRng }

/-- Options for a small well-behaved generation: 2×2, one mine. -/
def optsSmall : MinesweeperOpts :=
  { noOpts with
    rows := some 2
    columns := some 2
    mines := some 1
    rng := some halfRng }

/-- A fully-planted 3×3 one-mine instance with first-cell reveal and the
zero guarantee enabled: the mine sits in the corner, so zero cells exist
after counting. -/
def gC3 : Minesweeper :=
  { rows := 3, columns := 3, mines := 1, emote := strLit "boom", spaces := true,
    revealFirstCell := true, zeroFirstCell := true, returnType := RetType.emoji,
    types := mkTypes true (strLit "boom"),
    matrix := [[spoilerize true (strLit "boom"), spoilerize true (strLit "zero"),
                spoilerize true (strLit "zero")],
               [spoilerize true (strLit "zero"), spoilerize true (strLit "zero"),
                spoilerize true (strLit "zero")],
               [spoilerize true (strLit "zero"), spoilerize true (strLit "zero"),
                spoilerize true (strLit "zero")]],
    safeCells := [],
    rng := zeroRng, rngIdx := 0 }


def gC7 : Minesweeper :=
  { gC3 with zeroFirstCell := false }


/-! Theorems. -/

/-- C4: for every configuration with `rows * columns ≤ 2 * mines`, `start()`
returns the absent-value signal (`null`) without planting, populating or
revealing anything, and the instance's grid is the empty grid it was
constructed with. -/
theorem C4_dense_returns_null (fuel : Nat) (opts : MinesweeperOpts)
    (env : Nat → Frac)
    (h : (Minesweeper.ofOpts opts env).rows * (Minesweeper.ofOpts opts env).columns ≤
      2 * (Minesweeper.ofOpts opts env).mines) :
    start fuel (Minesweeper.ofOpts opts env) = .ok (none, Minesweeper.ofOpts opts env) ∧
    (Minesweeper.ofOpts opts env).matrix = [] := by
  constructor
  · unfold start
    rw [if_pos (by omega)]
  · rfl

/-- C4 witness: the spec's own refused example, 3×3 with 5 mines
(9 ≤ 10), returns `null` on an empty grid. -/
theorem C4_dense_returns_null_witness :
    (Minesweeper.ofOpts optsDense halfRng).rows *
      (Minesweeper.ofOpts optsDense halfRng).columns ≤
      2 * (Minesweeper.ofOpts optsDense halfRng).mines ∧
    start 10 (Minesweeper.ofOpts optsDense halfRng) =
      .ok (none, Minesweeper.ofOpts optsDense halfRng) ∧
    (Minesweeper.ofOpts optsDense halfRng).matrix = [] :=
  ⟨by decide, (C4_dense_returns_null 10 optsDense halfRng (by decide)).1,
    (C4_dense_returns_null 10 optsDense halfRng (by decide)).2⟩

/-- C5 counterexample: with spacing enabled, stripping 2 characters from
each end of the wrapped symbol `"|| :zero: ||"` yields `" :zero: "`, which
is not the bare token `":zero:"`; the claimed round-trip fails. -/
theorem C5_strip_counterexample :
    slice2 (spoilerize true (strLit "zero")) ≠ strLit ":zero:" := by decide

/-- C5 amended: stripping 2 characters from each end of the wrapped symbol
yields the bare `:<name>:` token exactly when spacing is disabled; with
spacing enabled it yields the bare token surrounded by one space on each
side. -/
theorem C5_strip_amended (s : Str) :
    slice2 (spoilerize false s) = strLit ":" ++ s ++ strLit ":" ∧
    slice2 (spoilerize true s) = strLit " :" ++ s ++ strLit ": " := by
  constructor <;>
  · simp [slice2, spoilerize, strLit, List.take_append_eq_append_take,
      List.length_append]

/-- C6: contrary to the claim, when `revealFirstCell` is enabled and the
`SafeCell` list is empty the reveal is not a guarded no-op: the code
indexes `safeCells[0]`, which is `undefined`, and faults reading `.x`. -/
theorem C6_empty_safecells_crashes (fuel : Nat) (g : Minesweeper)
    (h1 : g.revealFirstCell = true) (h2 : g.safeCells = []) :
    revealFirst fuel g = .crash := by
  simp [revealFirst, h1, h2, draw, floorMul]

/-- C6 witness: a concrete instance with `revealFirstCell` on and no safe
cells faults inside `revealFirst`. -/
theorem C6_empty_safecells_crashes_witness :
    gEmptySafe.revealFirstCell = true ∧ gEmptySafe.safeCells = [] ∧
    revealFirst 10 gEmptySafe = .crash :=
  ⟨rfl, rfl, C6_empty_safecells_crashes 10 gEmptySafe rfl rfl⟩

/-- C8: when `revealFirstCell` is false, `revealFirst()` returns the
sentinel coordinate `(-1, -1)` and the instance — in particular every cell
of its grid — is unchanged. -/
theorem C8_disabled_reveal_noop (fuel : Nat) (g : Minesweeper)
    (h : g.revealFirstCell = false) :
    revealFirst fuel g = .ok (⟨-1, -1⟩, g) := by
  simp [revealFirst, h]

/-- C8 witness: a concrete fully-masked instance with the option off is
returned untouched together with the sentinel. -/
theorem C8_disabled_reveal_noop_witness :
    gNoReveal.revealFirstCell = false ∧
    revealFirst 10 gNoReveal = .ok (⟨-1, -1⟩, gNoReveal) :=
  ⟨rfl, C8_disabled_reveal_noop 10 gNoReveal rfl⟩

/-- C9: two instances built from identical configurations whose random
sources produce the same sequence of values give identical `start()`
results (same rendered string or matrix, same final state). -/
theorem C9_deterministic (fuel : Nat) (opts : MinesweeperOpts)
    (env1 env2 : Nat → Frac) (r1 r2 : Nat → Frac) (h : ∀ i, r1 i = r2 i) :
    start fuel (Minesweeper.ofOpts { opts with rng := some r1 } env1) =
    start fuel (Minesweeper.ofOpts { opts with rng := some r2 } env2) := by
  have hr : r1 = r2 := funext h
  subst hr
  rfl

/-- C9 witness: two fresh instances over the constant-1/2 stream agree. -/
theorem C9_deterministic_witness :
    start 10 (Minesweeper.ofOpts { noOpts with rng := some halfRng } zeroRng) =
    start 10 (Minesweeper.ofOpts { noOpts with rng := some halfRng } halfRng) :=
  C9_deterministic 10 noOpts zeroRng halfRng halfRng halfRng (fun _ => rfl)

/-- C10: the constructor replaces falsy `rows`, `columns`, `mines` and
`emote` values with the defaults: explicitly passing `rows = 0`,
`columns = 0`, `mines = 0` and `emote = ""` yields 9, 9, 10 and "boom". -/
theorem C10_falsy_defaults (opts : MinesweeperOpts) (env : Nat → Frac)
    (hr : opts.rows = some 0) (hc : opts.columns = some 0)
    (hm : opts.mines = some 0) (he : opts.emote = some []) :
    (Minesweeper.ofOpts opts env).rows = 9 ∧
    (Minesweeper.ofOpts opts env).columns = 9 ∧
    (Minesweeper.ofOpts opts env).mines = 10 ∧
    (Minesweeper.ofOpts opts env).emote = strLit "boom" := by
  simp [Minesweeper.ofOpts, hr, hc, hm, he, orDefaultNat, orDefaultStr]

/-- C10 witness: the all-falsy options record gets all four defaults. -/
theorem C10_falsy_defaults_witness :
    optsFalsy.rows = some 0 ∧ optsFalsy.columns = some 0 ∧
    optsFalsy.mines = some 0 ∧ optsFalsy.emote = some [] ∧
    (Minesweeper.ofOpts optsFalsy halfRng).rows = 9 ∧
    (Minesweeper.ofOpts optsFalsy halfRng).columns = 9 ∧
    (Minesweeper.ofOpts optsFalsy halfRng).mines = 10 ∧
    (Minesweeper.ofOpts optsFalsy halfRng).emote = strLit "boom" := by
  refine ⟨rfl, rfl, rfl, rfl, ?_⟩
  exact C10_falsy_defaults optsFalsy halfRng rfl rfl rfl rfl

/-! Adjacency counting: `populate` computes exact Moore-neighbourhood
mine counts. -/

theorem mapRowGo_getD (f : Nat → Str → Str) (r : Row) :
    ∀ (y0 y : Nat), y < r.length →
    (mapRowGo f y0 r).getD y [] = f (y0 + y) (r.getD y []) := by
  induction r with
  | nil => intro y0 y hy; simp at hy
  | cons c cs ih =>
    intro y0 y hy
    cases y with
    | zero => simp [mapRowGo]
    | succ y' =>
      rw [show y0 + (y' + 1) = (y0 + 1) + y' by omega]
      show (mapRowGo f (y0 + 1) cs).getD y' [] = _
      rw [ih (y0 + 1) y' (by simpa using Nat.lt_of_succ_lt_succ hy), List.getD_cons_succ]

theorem mapGridGo_getD (f : Nat → Nat → Str → Str) (m : MatrixG) :
    ∀ (x0 x : Nat), x < m.length →
    (mapGridGo f x0 m).getD x [] = mapRowGo (f (x0 + x)) 0 (m.getD x []) := by
  induction m with
  | nil => intro x0 x hx; simp at hx
  | cons r rs ih =>
    intro x0 x hx
    cases x with
    | zero => simp [mapGridGo]
    | succ x' =>
      rw [show x0 + (x' + 1) = (x0 + 1) + x' by omega]
      show (mapGridGo f (x0 + 1) rs).getD x' [] = _
      rw [ih (x0 + 1) x' (by simpa using Nat.lt_of_succ_lt_succ hx), List.getD_cons_succ]

theorem populate_cellN (g : Minesweeper) (x y : Nat)
    (hx : x < g.matrix.length) (hy : y < (g.matrix.getD x []).length) :
    cellN (populate g).matrix x y = getNumberOfMines g x y := by
  show ((mapGridGo (fun x y _ => getNumberOfMines g x y) 0 g.matrix).getD x []).getD y [] = _
  rw [mapGridGo_getD _ _ 0 x hx, mapRowGo_getD _ _ 0 y hy]
  simp

theorem nbInd (g : Minesweeper) (i j : Int) (xn yn : Nat) (gb : Bool)
    (hguard : gb = true ↔ (0 ≤ i ∧ i < (g.rows : Int) ∧ 0 ≤ j ∧ j < (g.columns : Int)))
    (hxy : i.toNat = xn ∧ j.toNat = yn) :
    (if (decide (0 ≤ i ∧ i < (g.rows : Int) ∧ 0 ≤ j ∧ j < (g.columns : Int)) &&
        decide (cellI g.matrix i j = g.types.mine)) = true then 1 else 0) =
    (gb && decide (cellN g.matrix xn yn = g.types.mine)).toNat := by
  obtain ⟨hi, hj⟩ := hxy
  cases hb : gb with
  | false =>
    have hnb : ¬(0 ≤ i ∧ i < (g.rows : Int) ∧ 0 ≤ j ∧ j < (g.columns : Int)) := by
      intro hcon
      rw [hguard.mpr hcon] at hb
      exact absurd hb (by simp)
    simp [hnb]
  | true =>
    obtain ⟨h1, h2, h3, h4⟩ := hguard.mp hb
    have hcell : cellI g.matrix i j = cellN g.matrix xn yn := by
      rw [cellI, if_pos ⟨h1, h3⟩, hi, hj]
    rw [hcell]
    have hd : decide (0 ≤ i ∧ i < (g.rows : Int) ∧ 0 ≤ j ∧ j < (g.columns : Int)) = true :=
      decide_eq_true ⟨h1, h2, h3, h4⟩
    rw [hd]
    cases hc : decide (cellN g.matrix xn yn = g.types.mine) <;> simp [hc]

theorem mineCounter_eq_moore (g : Minesweeper) (x y : Nat)
    (hx : x < g.rows) (hy : y < g.columns) :
    mineCounter g x y = mooreMineCount g x y := by
  have e1 := nbInd g ((x : Int) - 1) ((y : Int) - 1) (x - 1) (y - 1)
    (decide (0 < x) && decide (0 < y))
    (by simp only [Bool.and_eq_true, decide_eq_true_eq]; omega)
    (by constructor <;> omega)
  have e2 := nbInd g ((x : Int) - 1) ((y : Int)) (x - 1) y (decide (0 < x))
    (by simp only [decide_eq_true_eq]; omega)
    (by constructor <;> omega)
  have e3 := nbInd g ((x : Int) - 1) ((y : Int) + 1) (x - 1) (y + 1)
    (decide (0 < x) && decide (y < g.columns - 1))
    (by simp only [Bool.and_eq_true, decide_eq_true_eq]; omega)
    (by constructor <;> omega)
  have e4 := nbInd g ((x : Int)) ((y : Int) - 1) x (y - 1) (decide (0 < y))
    (by simp only [decide_eq_true_eq]; omega)
    (by constructor <;> omega)
  have e5 := nbInd g ((x : Int)) ((y : Int) + 1) x (y + 1) (decide (y < g.columns - 1))
    (by simp only [decide_eq_true_eq]; omega)
    (by constructor <;> omega)
  have e6 := nbInd g ((x : Int) + 1) ((y : Int) - 1) (x + 1) (y - 1)
    (decide (x < g.rows - 1) && decide (0 < y))
    (by simp only [Bool.and_eq_true, decide_eq_true_eq]; omega)
    (by constructor <;> omega)
  have e7 := nbInd g ((x : Int) + 1) ((y : Int)) (x + 1) y (decide (x < g.rows - 1))
    (by simp only [decide_eq_true_eq]; omega)
    (by constructor <;> omega)
  have e8 := nbInd g ((x : Int) + 1) ((y : Int) + 1) (x + 1) (y + 1)
    (decide (x < g.rows - 1) && decide (y < g.columns - 1))
    (by simp only [Bool.and_eq_true, decide_eq_true_eq]; omega)
    (by constructor <;> omega)
  simp only [mooreMineCount, mooreNeighbors, List.countP_cons, List.countP_nil]
  rw [e1, e2, e3, e4, e5, e6, e7, e8]
  simp only [mineCounter]
  omega

/-- C2: after `populate()` runs, every non-mine cell's symbol is
`numbers[c]` where `c` is the exact number of mine cells among its up-to-8
Moore neighbours clipped at the grid boundary, and `c ≤ 8`. -/
theorem C2_populate_exact_counts (g : Minesweeper) (x y : Nat)
    (hlen : g.matrix.length = g.rows)
    (hrow : ∀ r ∈ g.matrix, r.length = g.columns)
    (hx : x < g.rows) (hy : y < g.columns)
    (hnm : cellN g.matrix x y ≠ g.types.mine) :
    cellN (populate g).matrix x y = g.types.numbers.getD (mooreMineCount g x y) [] ∧
    mooreMineCount g x y ≤ 8 := by
  have hx' : x < g.matrix.length := by omega
  have hyl : (g.matrix.getD x []).length = g.columns := by
    apply hrow
    rw [List.getD_eq_getElem?_getD, List.getElem?_eq_getElem hx', Option.getD_some]
    exact List.getElem_mem hx'
  constructor
  · rw [populate_cellN g x y hx' (by rw [hyl]; exact hy)]
    simp only [getNumberOfMines, mineCounter_eq_moore g x y hx hy]
    rw [if_neg hnm]
  · calc mooreMineCount g x y ≤ (mooreNeighbors x y).length := List.countP_le_length _
    _ = 8 := rfl

/-- C2 witness: on a concrete fully-planted 2×2 grid the populated corner
cell reports its exact Moore count. -/
theorem C2_populate_exact_counts_witness :
    (gNoReveal.matrix.length = gNoReveal.rows ∧
      (∀ r ∈ gNoReveal.matrix, r.length = gNoReveal.columns) ∧
      0 < gNoReveal.rows ∧ 0 < gNoReveal.columns ∧
      cellN gNoReveal.matrix 0 0 ≠ gNoReveal.types.mine) ∧
    cellN (populate gNoReveal).matrix 0 0 =
      gNoReveal.types.numbers.getD (mooreMineCount gNoReveal 0 0) [] ∧
    mooreMineCount gNoReveal 0 0 ≤ 8 :=
  ⟨⟨by decide, by decide, by decide, by decide, by decide⟩,
    C2_populate_exact_counts gNoReveal 0 0 (by decide) (by decide)
      (by decide) (by decide) (by decide)⟩

theorem floorMul_lt (f : Frac) (n : Nat) (h : f.1 < f.2) (hn : 0 < n) :
    floorMul f n < n := by
  have hb : 0 < f.2 := Nat.lt_of_le_of_lt (Nat.zero_le _) h
  rw [floorMul, Nat.div_lt_iff_lt_mul hb]
  calc f.1 * n < f.2 * n := (Nat.mul_lt_mul_right hn).mpr h
  _ = n * f.2 := Nat.mul_comm _ _

theorem getD_set_self {α : Type} : ∀ (l : List α) (i : Nat) (a d : α), i < l.length →
    (l.set i a).getD i d = a := by
  intro l
  induction l with
  | nil => intro i a d h; simp at h
  | cons c cs ih =>
    intro i a d h
    cases i with
    | zero => rfl
    | succ i' =>
      show (cs.set i' a).getD i' d = a
      exact ih i' a d (by simpa using Nat.lt_of_succ_lt_succ h)

theorem getD_set_ne {α : Type} : ∀ (l : List α) (i j : Nat) (a d : α), i ≠ j →
    (l.set i a).getD j d = l.getD j d := by
  intro l
  induction l with
  | nil => intro i j a d h; simp [List.set]
  | cons c cs ih =>
    intro i j a d h
    cases i with
    | zero =>
      cases j with
      | zero => exact absurd rfl h
      | succ j' => rfl
    | succ i' =>
      cases j with
      | zero => rfl
      | succ j' =>
        show (cs.set i' a).getD j' d = cs.getD j' d
        exact ih i' j' a d (fun hc => h (by rw [hc]))

theorem map_set {α β : Type} (f : α → β) : ∀ (l : List α) (i : Nat) (a : α),
    (l.set i a).map f = (l.map f).set i (f a) := by
  intro l
  induction l with
  | nil => intro i a; rfl
  | cons c cs ih =>
    intro i a
    cases i with
    | zero => rfl
    | succ i' => show f c :: (cs.set i' a).map f = _; rw [ih i' a]; rfl

theorem getD_map {α β : Type} (f : α → β) : ∀ (l : List α) (i : Nat) (d : α),
    i < l.length → (l.map f).getD i (f d) = f (l.getD i d) := by
  intro l
  induction l with
  | nil => intro i d h; simp at h
  | cons c cs ih =>
    intro i d h
    cases i with
    | zero => rfl
    | succ i' => exact ih i' d (by simpa using Nat.lt_of_succ_lt_succ h)

theorem sum_set : ∀ (l : List Nat) (i a : Nat), i < l.length →
    (l.set i a).sum + l.getD i 0 = l.sum + a := by
  intro l
  induction l with
  | nil => intro i a h; simp at h
  | cons c cs ih =>
    intro i a h
    cases i with
    | zero => simp [List.set]; omega
    | succ i' =>
      have := ih i' a (by simpa using Nat.lt_of_succ_lt_succ h)
      show (c :: cs.set i' a).sum + cs.getD i' 0 = _
      simp [List.sum_cons] at this ⊢
      omega

theorem countP_set (q : Str → Bool) : ∀ (r : List Str) (y : Nat) (v : Str), y < r.length →
    (r.set y v).countP q + (if q (r.getD y []) then 1 else 0) =
    r.countP q + (if q v then 1 else 0) := by
  intro r
  induction r with
  | nil => intro y v h; simp at h
  | cons c cs ih =>
    intro y v h
    cases y with
    | zero => simp [List.countP_cons]; omega
    | succ y' =>
      have := ih y' v (by simpa using Nat.lt_of_succ_lt_succ h)
      show (c :: cs.set y' v).countP q + (if q (cs.getD y' []) then 1 else 0) = _
      simp [List.countP_cons] at this ⊢
      omega

theorem gridShape_getD {m : MatrixG} {R C : Nat} (h : gridShape m R C) :
    m.length = R ∧ ∀ x, x < R → (m.getD x []).length = C := by
  obtain ⟨h1, h2⟩ := h
  refine ⟨h1, fun x hx => ?_⟩
  have hx' : x < m.length := by omega
  rw [List.getD_eq_getElem?_getD, List.getElem?_eq_getElem hx', Option.getD_some]
  exact h2 _ (List.getElem_mem hx')

theorem gridShape_of_getD {m : MatrixG} {R C : Nat}
    (h1 : m.length = R) (h2 : ∀ x, x < R → (m.getD x []).length = C) :
    gridShape m R C := by
  refine ⟨h1, fun r hr => ?_⟩
  obtain ⟨i, hi, hEq⟩ := List.getElem_of_mem hr
  have h3 := h2 i (by omega)
  rw [List.getD_eq_getElem?_getD, List.getElem?_eq_getElem hi, Option.getD_some, hEq] at h3
  exact h3

theorem gridShape_setN {m : MatrixG} {R C : Nat} (x y : Nat) (v : Str)
    (h : gridShape m R C) : gridShape (setN m x y v) R C := by
  obtain ⟨h1, h2⟩ := gridShape_getD h
  apply gridShape_of_getD
  · rw [setN, List.length_set, h1]
  · intro x' hx'
    by_cases hxx : x = x'
    · subst hxx
      by_cases hxm : x < m.length
      · rw [setN, getD_set_self _ _ _ _ hxm, List.length_set]
        exact h2 x hx'
      · omega
    · rw [setN, getD_set_ne _ _ _ _ _ hxx]
      exact h2 x' hx'

theorem cellN_setN_same {m : MatrixG} {R C : Nat} (x y : Nat) (v : Str)
    (h : gridShape m R C) (hx : x < R) (hy : y < C) :
    cellN (setN m x y v) x y = v := by
  obtain ⟨h1, h2⟩ := gridShape_getD h
  rw [cellN, setN, getD_set_self _ _ _ _ (by omega)]
  exact getD_set_self _ _ _ _ (by rw [h2 x hx]; exact hy)

theorem cellN_setN_ne {m : MatrixG} (x y x' y' : Nat) (v : Str)
    (hne : x ≠ x' ∨ y ≠ y') :
    cellN (setN m x y v) x' y' = cellN m x' y' := by
  rcases hne with hne | hne
  · rw [cellN, setN, getD_set_ne _ _ _ _ _ hne, cellN]
  · by_cases hxx : x = x'
    · subst hxx
      by_cases hxm : x < m.length
      · rw [cellN, setN, getD_set_self _ _ _ _ hxm, getD_set_ne _ _ _ _ _ hne, cellN]
      · rw [cellN, setN]
        have : m.set x ((m.getD x []).set y v) = m := by
          apply List.set_eq_of_length_le
          omega
        rw [this, cellN]
    · rw [cellN, setN, getD_set_ne _ _ _ _ _ hxx, cellN]

theorem mineTotal_setN {m : MatrixG} {R C : Nat} {tok : Str} (x y : Nat)
    (h : gridShape m R C) (hx : x < R) (hy : y < C)
    (hne : cellN m x y ≠ tok) :
    mineTotal (setN m x y tok) tok = mineTotal m tok + 1 := by
  obtain ⟨h1, h2⟩ := gridShape_getD h
  have hxm : x < m.length := by omega
  have hym : y < (m.getD x []).length := by rw [h2 x hx]; exact hy
  rw [mineTotal, mineTotal, setN, map_set]
  have hs := sum_set (m.map (fun r => r.countP (fun c => decide (c = tok)))) x
    (((m.getD x []).set y tok).countP (fun c => decide (c = tok)))
    (by rw [List.length_map]; exact hxm)
  have hgm : (List.map (fun r => List.countP (fun c => decide (c = tok)) r) m).getD x 0 =
      List.countP (fun c => decide (c = tok)) (List.getD m x []) := by
    simpa using getD_map (fun r => List.countP (fun c => decide (c = tok)) r) m x [] hxm
  have hcp := countP_set (fun c => decide (c = tok)) (m.getD x []) y tok hym
  simp only [decide_eq_true_eq] at hcp
  rw [if_pos trivial] at hcp
  rw [if_neg (show ¬ List.getD (List.getD m x []) y [] = tok from hne)] at hcp
  rw [hgm] at hs
  omega

theorem mineTotal_replicate {R C : Nat} {z tok : Str} (hne : z ≠ tok) :
    mineTotal (List.replicate R (List.replicate C z)) tok = 0 := by
  rw [mineTotal, List.map_replicate]
  have hc : (List.replicate C z).countP (fun c => decide (c = tok)) = 0 := by
    rw [List.countP_eq_zero]
    intro a ha
    rw [List.eq_of_mem_replicate ha]
    simpa using hne
  rw [hc]
  simp

theorem plantMinesGo_spec : ∀ (fuel r : Nat) (g g' : Minesweeper),
    rngOk g → 0 < g.rows → 0 < g.columns → gridShape g.matrix g.rows g.columns →
    plantMinesGo r fuel g = some g' →
    ∃ M k, g' = { g with matrix := M, rngIdx := k } ∧
      gridShape M g.rows g.columns ∧
      mineTotal M g.types.mine = mineTotal g.matrix g.types.mine + r := by
  intro fuel
  induction fuel with
  | zero =>
    intro r g g' hrng hr hc hsh h
    cases r with
    | zero =>
      have hg : g = g' := by simpa [plantMinesGo] using h
      subst hg
      exact ⟨g.matrix, g.rngIdx, rfl, hsh, by omega⟩
    | succ r' => simp [plantMinesGo] at h
  | succ n ih =>
    intro r g g' hrng hr hc hsh h
    cases r with
    | zero =>
      have hg : g = g' := by simpa [plantMinesGo] using h
      subst hg
      exact ⟨g.matrix, g.rngIdx, rfl, hsh, by omega⟩
    | succ r' =>
      simp only [plantMinesGo, draw] at h
      split at h
      case isTrue hcond =>
        obtain ⟨M, k, hEq, hShp, hCnt⟩ :=
          ih (r' + 1) { g with rngIdx := g.rngIdx + 1 + 1 } g' hrng hr hc hsh h
        exact ⟨M, k, hEq, hShp, hCnt⟩
      case isFalse hcond =>
        have hx : floorMul (g.rng g.rngIdx) g.rows < g.rows :=
          floorMul_lt _ _ (hrng g.rngIdx) hr
        have hy : floorMul (g.rng (g.rngIdx + 1)) g.columns < g.columns :=
          floorMul_lt _ _ (hrng (g.rngIdx + 1)) hc
        have hset : gridShape (setN g.matrix (floorMul (g.rng g.rngIdx) g.rows)
            (floorMul (g.rng (g.rngIdx + 1)) g.columns) g.types.mine) g.rows g.columns :=
          gridShape_setN _ _ _ hsh
        obtain ⟨M, k, hEq, hShp, hCnt⟩ :=
          ih r' { g with
              matrix := setN g.matrix (floorMul (g.rng g.rngIdx) g.rows)
                (floorMul (g.rng (g.rngIdx + 1)) g.columns) g.types.mine,
              rngIdx := g.rngIdx + 1 + 1 } g' hrng hr hc hset h
        refine ⟨M, k, hEq, hShp, ?_⟩
        have hCnt' : mineTotal M g.types.mine =
            mineTotal (setN g.matrix (floorMul (g.rng g.rngIdx) g.rows)
              (floorMul (g.rng (g.rngIdx + 1)) g.columns) g.types.mine) g.types.mine + r' := hCnt
        rw [mineTotal_setN _ _ hsh hx hy hcond] at hCnt'
        omega

theorem spoilerize_inj {sp : Bool} {a b : Str} (h : spoilerize sp a = spoilerize sp b) :
    a = b := by
  cases sp <;> simpa [spoilerize, strLit] using h

theorem numTok_eq (sp : Bool) (e : Str) (k : Nat) (hk : k ≤ 8) :
    (mkTypes sp e).numbers.getD k [] = spoilerize sp (numberNames.getD k []) := by
  interval_cases k <;> rfl

theorem numName_mem (k : Nat) (hk : k ≤ 8) : numberNames.getD k [] ∈ numberNames := by
  interval_cases k <;> decide

theorem mine_ne_numTok (sp : Bool) (e : Str) (he : e ∉ numberNames) (k : Nat) (hk : k ≤ 8) :
    (mkTypes sp e).mine ≠ (mkTypes sp e).numbers.getD k [] := by
  rw [numTok_eq sp e k hk]
  intro hEq
  exact he (spoilerize_inj hEq ▸ numName_mem k hk)

theorem mapRowGo_length (f : Nat → Str → Str) : ∀ (r : Row) (y0 : Nat),
    (mapRowGo f y0 r).length = r.length := by
  intro r
  induction r with
  | nil => intro y0; rfl
  | cons c cs ih => intro y0; simp [mapRowGo, ih]

theorem mapGridGo_length (f : Nat → Nat → Str → Str) : ∀ (m : MatrixG) (x0 : Nat),
    (mapGridGo f x0 m).length = m.length := by
  intro m
  induction m with
  | nil => intro x0; rfl
  | cons r rs ih => intro x0; simp [mapGridGo, ih]

theorem populate_shape (g : Minesweeper) {R C : Nat}
    (hsh : gridShape g.matrix R C) : gridShape (populate g).matrix R C := by
  obtain ⟨h1, h2⟩ := gridShape_getD hsh
  apply gridShape_of_getD
  · show (mapGridGo _ 0 g.matrix).length = R
    rw [mapGridGo_length]
    exact h1
  · intro x hx
    show ((mapGridGo _ 0 g.matrix).getD x []).length = C
    rw [mapGridGo_getD _ _ 0 x (by omega), mapRowGo_length]
    exact h2 x hx

theorem getNumberOfMines_eq_mine_iff (g : Minesweeper) (x y : Nat)
    (hx : x < g.rows) (hy : y < g.columns)
    (hmn : ∀ k, k ≤ 8 → g.types.numbers.getD k [] ≠ g.types.mine) :
    (getNumberOfMines g x y = g.types.mine ↔ cellN g.matrix x y = g.types.mine) := by
  constructor
  · intro h
    by_contra hc
    rw [getNumberOfMines, if_neg hc] at h
    have hle : mineCounter g x y ≤ 8 := by
      rw [mineCounter_eq_moore g x y hx hy]
      calc mooreMineCount g x y ≤ (mooreNeighbors x y).length := List.countP_le_length _
      _ = 8 := rfl
    exact hmn _ hle h
  · intro h
    rw [getNumberOfMines, if_pos h]

theorem countP_mapRowGo (q : Str → Bool) (f : Nat → Str → Str) : ∀ (r : Row) (y0 : Nat),
    (∀ y, y < r.length → q (f (y0 + y) (r.getD y [])) = q (r.getD y [])) →
    (mapRowGo f y0 r).countP q = r.countP q := by
  intro r
  induction r with
  | nil => intro y0 _; rfl
  | cons c cs ih =>
    intro y0 hiff
    have h0 := hiff 0 (by simp)
    simp only [Nat.add_zero, List.getD_cons_zero] at h0
    show (f y0 c :: mapRowGo f (y0 + 1) cs).countP q = (c :: cs).countP q
    rw [List.countP_cons, List.countP_cons, h0,
      ih (y0 + 1) (fun y hy => by
        have := hiff (y + 1) (by simpa using Nat.succ_lt_succ hy)
        rw [show y0 + (y + 1) = (y0 + 1) + y by omega] at this
        simpa using this)]

theorem mineTotal_mapGridGo (tok : Str) (f : Nat → Nat → Str → Str) :
    ∀ (m : MatrixG) (x0 : Nat),
    (∀ x y, x < m.length → y < (m.getD x []).length →
      decide (f (x0 + x) y (cellN m x y) = tok) = decide (cellN m x y = tok)) →
    mineTotal (mapGridGo f x0 m) tok = mineTotal m tok := by
  intro m
  induction m with
  | nil => intro x0 _; rfl
  | cons r rs ih =>
    intro x0 hiff
    show mineTotal (mapRowGo (f x0) 0 r :: mapGridGo f (x0 + 1) rs) tok = _
    rw [mineTotal, List.map_cons, List.sum_cons, mineTotal, List.map_cons, List.sum_cons]
    have hrow : (mapRowGo (f x0) 0 r).countP (fun c => decide (c = tok)) =
        r.countP (fun c => decide (c = tok)) := by
      apply countP_mapRowGo
      intro y hy
      have := hiff 0 y (by simp) (by simpa using hy)
      simpa [cellN] using this
    have hrest : mineTotal (mapGridGo f (x0 + 1) rs) tok = mineTotal rs tok := by
      apply ih
      intro x y hx hy
      have := hiff (x + 1) y (by simpa using Nat.succ_lt_succ hx) (by simpa [cellN] using hy)
      rw [show x0 + (x + 1) = (x0 + 1) + x by omega] at this
      simpa [cellN] using this
    have hrest' : (List.map (fun r => List.countP (fun c => decide (c = tok)) r)
        (mapGridGo f (x0 + 1) rs)).sum =
        (List.map (fun r => List.countP (fun c => decide (c = tok)) r) rs).sum := hrest
    rw [hrow, hrest']

theorem populate_mineTotal (g : Minesweeper)
    (hsh : gridShape g.matrix g.rows g.columns)
    (hmn : ∀ k, k ≤ 8 → g.types.numbers.getD k [] ≠ g.types.mine) :
    mineTotal (populate g).matrix g.types.mine = mineTotal g.matrix g.types.mine := by
  show mineTotal (mapGridGo (fun x y _ => getNumberOfMines g x y) 0 g.matrix) g.types.mine = _
  apply mineTotal_mapGridGo
  intro x y hx hy
  obtain ⟨h1, h2⟩ := gridShape_getD hsh
  have hx' : x < g.rows := by omega
  have hy' : y < g.columns := by
    have := h2 x hx'
    omega
  simp only [Nat.zero_add]
  exact decide_eq_decide.mpr (getNumberOfMines_eq_mine_iff g x y hx' hy' hmn)

theorem getD_of_lt {α : Type} (l : List α) (i : Nat) (d : α) (h : i < l.length) :
    l.getD i d = l[i] := by
  rw [List.getD_eq_getElem?_getD, List.getElem?_eq_getElem h, Option.getD_some]

theorem matrix_ext {m1 m2 : MatrixG}
    (hlen : m1.length = m2.length)
    (hrow : ∀ x, x < m1.length → (m1.getD x []).length = (m2.getD x []).length)
    (hcell : ∀ x y, x < m1.length → y < (m1.getD x []).length → cellN m1 x y = cellN m2 x y) :
    m1 = m2 := by
  apply List.ext_getElem hlen
  intro x h1 h2
  have hrl : (m1[x]).length = (m2[x]).length := by
    have := hrow x h1
    rw [getD_of_lt _ _ _ h1, getD_of_lt _ _ _ h2] at this
    exact this
  apply List.ext_getElem hrl
  intro y hy1 hy2
  have hc := hcell x y h1 (by rw [getD_of_lt _ _ _ h1]; exact hy1)
  rw [cellN, cellN, getD_of_lt _ _ _ h1, getD_of_lt _ _ _ h2,
    getD_of_lt _ _ _ hy1, getD_of_lt _ _ _ hy2] at hc
  exact hc

theorem stripB_shape {m : MatrixG} {R C : Nat} (B : Nat → Nat → Bool)
    (hsh : gridShape m R C) : gridShape (stripB m B) R C := by
  obtain ⟨h1, h2⟩ := gridShape_getD hsh
  apply gridShape_of_getD
  · show (mapGridGo _ 0 m).length = R
    rw [mapGridGo_length]; exact h1
  · intro x hx
    show ((mapGridGo _ 0 m).getD x []).length = C
    rw [mapGridGo_getD _ _ 0 x (by omega), mapRowGo_length]
    exact h2 x hx

theorem cellN_stripB {m : MatrixG} (B : Nat → Nat → Bool) (x y : Nat)
    (hx : x < m.length) (hy : y < (m.getD x []).length) :
    cellN (stripB m B) x y = if B x y then slice2 (cellN m x y) else cellN m x y := by
  show ((mapGridGo _ 0 m).getD x []).getD y [] = _
  rw [mapGridGo_getD _ _ 0 x hx, mapRowGo_getD _ _ 0 y hy]
  simp [cellN]

theorem cellI_inb (m : MatrixG) (i j : Int) (hi : 0 ≤ i) (hj : 0 ≤ j) :
    cellI m i j = cellN m i.toNat j.toNat := if_pos ⟨hi, hj⟩

theorem setI_inb (m : MatrixG) (i j : Int) (v : Str) (hi : 0 ≤ i) (hj : 0 ≤ j) :
    setI m i j v = setN m i.toNat j.toNat v := if_pos ⟨hi, hj⟩

theorem stripB_congr {m : MatrixG} {R C : Nat} (B1 B2 : Nat → Nat → Bool)
    (hsh : gridShape m R C)
    (h : ∀ x y, x < R → y < C → B1 x y = B2 x y) : stripB m B1 = stripB m B2 := by
  obtain ⟨h1, h2⟩ := gridShape_getD hsh
  obtain ⟨s1l, s1r⟩ := gridShape_getD (stripB_shape B1 hsh)
  obtain ⟨s2l, s2r⟩ := gridShape_getD (stripB_shape B2 hsh)
  apply matrix_ext
  · omega
  · intro x hx
    rw [s1r x (by omega), s2r x (by omega)]
  · intro x y hx hy
    have hxR : x < R := by omega
    have hyC : y < C := by
      have := s1r x hxR
      omega
    have hxm : x < m.length := by omega
    have hym : y < (m.getD x []).length := by
      have := h2 x hxR
      omega
    rw [cellN_stripB B1 x y hxm hym, cellN_stripB B2 x y hxm hym, h x y hxR hyC]

theorem setI_stripB {m : MatrixG} {R C : Nat} (B : Nat → Nat → Bool) (i j : Int)
    (hsh : gridShape m R C)
    (hi : 0 ≤ i) (hiR : i < (R : Int)) (hj : 0 ≤ j) (hjC : j < (C : Int))
    (hB : B i.toNat j.toNat = false) :
    setI (stripB m B) i j (slice2 (cellI (stripB m B) i j)) =
    stripB m (insertB B i.toNat j.toNat) := by
  obtain ⟨h1, h2⟩ := gridShape_getD hsh
  have hxR : i.toNat < R := by omega
  have hyC : j.toNat < C := by omega
  have hxm : i.toNat < m.length := by omega
  have hym : j.toNat < (m.getD i.toNat []).length := by
    have := h2 i.toNat hxR
    omega
  have hsetshape := gridShape_setN (R := R) (C := C) i.toNat j.toNat
    (slice2 (cellI (stripB m B) i j)) (stripB_shape B hsh)
  obtain ⟨t1l, t1r⟩ := gridShape_getD hsetshape
  obtain ⟨t2l, t2r⟩ := gridShape_getD (stripB_shape (insertB B i.toNat j.toNat) hsh)
  obtain ⟨sl, sr⟩ := gridShape_getD (stripB_shape B hsh)
  have hv : cellI (stripB m B) i j = cellN m i.toNat j.toNat := by
    rw [cellI_inb _ _ _ hi hj, cellN_stripB B _ _ hxm hym, hB]
    simp
  rw [setI_inb _ _ _ _ hi hj]
  apply matrix_ext
  · omega
  · intro x hx
    rw [t1r x (by omega), t2r x (by omega)]
  · intro x y hx hy
    have hxR' : x < R := by omega
    have hyC' : y < C := by
      have := t1r x hxR'
      omega
    have hxm' : x < m.length := by omega
    have hym' : y < (m.getD x []).length := by
      have := h2 x hxR'
      omega
    by_cases hxy : x = i.toNat ∧ y = j.toNat
    · obtain ⟨rfl, rfl⟩ := hxy
      rw [cellN_setN_same _ _ _ (stripB_shape B hsh) hxR hyC, hv,
        cellN_stripB _ _ _ hxm' hym']
      have hins : insertB B i.toNat j.toNat i.toNat j.toNat = true := by simp [insertB]
      rw [hins]
      simp
    · have hne : x ≠ i.toNat ∨ y ≠ j.toNat := by tauto
      rw [cellN_setN_ne _ _ _ _ _ (by tauto), cellN_stripB _ _ _ hxm' hym',
        cellN_stripB _ _ _ hxm' hym']
      have hins : insertB B i.toNat j.toNat x y = B x y := by
        rw [insertB]
        rcases hne with hne | hne
        · rw [decide_eq_false hne]
          simp
        · rw [decide_eq_false hne]
          simp
      rw [hins]

theorem spoilerize_head (sp : Bool) (e : Str) : ∃ t, spoilerize sp e = '|' :: '|' :: t := by
  cases sp <;> exact ⟨_, rfl⟩

theorem TypesOk_mkTypes (sp : Bool) (e : Str) (he : e ∉ numberNames) :
    TypesOk (mkTypes sp e) := by
  refine ⟨?_, ?_, ?_, ?_, ?_, ?_⟩
  · obtain ⟨t, ht⟩ := spoilerize_head sp e
    show hasBars (spoilerize sp e) = true
    rw [ht]
    rfl
  · intro k hk
    interval_cases k <;> cases sp <;> rfl
  · intro k hk
    interval_cases k <;> cases sp <;> rfl
  · intro k hk hEq
    obtain ⟨t, ht⟩ := spoilerize_head sp e
    have : hasBars (slice2 ((mkTypes sp e).numbers.getD k [])) = true := by
      rw [hEq]
      show hasBars (spoilerize sp e) = true
      rw [ht]; rfl
    have hf : hasBars (slice2 ((mkTypes sp e).numbers.getD k [])) = false := by
      interval_cases k <;> cases sp <;> rfl
    rw [hf] at this
    exact absurd this (by simp)
  · intro k hk hEq
    exact mine_ne_numTok sp e he k hk hEq.symm
  · intro j k hj hk hEq
    rw [numTok_eq sp e j hj, numTok_eq sp e k hk] at hEq
    have := spoilerize_inj hEq
    interval_cases j <;> interval_cases k <;> first
      | rfl
      | (exfalso; revert this; decide)

theorem cellI_stripB {m : MatrixG} {R C : Nat} (B : Nat → Nat → Bool) (i j : Int)
    (hsh : gridShape m R C)
    (hi : 0 ≤ i) (hiR : i < (R : Int)) (hj : 0 ≤ j) (hjC : j < (C : Int)) :
    cellI (stripB m B) i j =
    if B i.toNat j.toNat then slice2 (cellN m i.toNat j.toNat) else cellN m i.toNat j.toNat := by
  obtain ⟨h1, h2⟩ := gridShape_getD hsh
  rw [cellI_inb _ _ _ hi hj]
  apply cellN_stripB
  · omega
  · have := h2 i.toNat (by omega)
    omega

theorem sweepGo_spec (m : MatrixG) (R C : Nat) :
    ∀ (pairs : List (Int × Int)) (B : Nat → Nat → Bool) (g : Minesweeper),
    g.matrix = stripB m B →
    gridShape m R C →
    TypesOk g.types →
    tokensOnly m R C g.types →
    strippedInv m R C g.types B →
    (∀ p ∈ pairs, 0 ≤ p.1 ∧ p.1 < (R : Int) ∧ 0 ≤ p.2 ∧ p.2 < (C : Int) ∧
      cellI m p.1 p.2 ≠ g.types.mine) →
    (sweepGo g pairs).1 = { g with matrix := stripB m (unionB B (memPairsB pairs)) } ∧
    (∀ z ∈ (sweepGo g pairs).2, ∃ xn yn : Nat, z = natCell xn yn ∧ xn < R ∧ yn < C ∧
      cellN m xn yn = g.types.numbers.getD 0 [] ∧ B xn yn = false ∧
      ((xn : Int), (yn : Int)) ∈ pairs) ∧
    (∀ p ∈ pairs, B p.1.toNat p.2.toNat = false →
      cellI m p.1 p.2 = g.types.numbers.getD 0 [] →
      (⟨p.1, p.2⟩ : SafeCell) ∈ (sweepGo g pairs).2) := by
  intro pairs
  induction pairs with
  | nil =>
    intro B g hm hsh hty htok hinv hpairs
    refine ⟨?_, by simp [sweepGo], by simp⟩
    show g = _
    have : stripB m (unionB B (memPairsB [])) = stripB m B :=
      stripB_congr _ _ hsh (fun x y _ _ => by simp [unionB, memPairsB])
    rw [this, ← hm]
  | cons ij rest ih =>
    intro B g hm hsh hty htok hinv hpairs
    obtain ⟨hi0, hiR, hj0, hjC, hnm⟩ := hpairs ij (by simp)
    obtain ⟨hbM, hbNum, hbStr, hsNe, hnNe, hinj⟩ := hty
    have hrest : ∀ p ∈ rest, 0 ≤ p.1 ∧ p.1 < (R : Int) ∧ 0 ≤ p.2 ∧ p.2 < (C : Int) ∧
        cellI m p.1 p.2 ≠ g.types.mine := fun p hp => hpairs p (by simp [hp])
    have e1 : ((ij.1.toNat : Nat) : Int) = ij.1 := by omega
    have e2 : ((ij.2.toNat : Nat) : Int) = ij.2 := by omega
    have hcellm : cellI m ij.1 ij.2 = cellN m ij.1.toNat ij.2.toNat :=
      cellI_inb _ _ _ hi0 hj0
    obtain ⟨k, hk, hktok⟩ : ∃ k, k ≤ 8 ∧
        cellN m ij.1.toNat ij.2.toNat = g.types.numbers.getD k [] := by
      rcases htok ij.1.toNat ij.2.toNat (by omega) (by omega) with h | h
      · exact absurd (hcellm.trans h) hnm
      · exact h
    have hcellg : cellI g.matrix ij.1 ij.2 =
        (if B ij.1.toNat ij.2.toNat then slice2 (cellN m ij.1.toNat ij.2.toNat)
          else cellN m ij.1.toNat ij.2.toNat) := by
      rw [hm]
      exact cellI_stripB B ij.1 ij.2 hsh hi0 hiR hj0 hjC
    by_cases hB : B ij.1.toNat ij.2.toNat = true
    · have hnb : hasBars (cellI g.matrix ij.1 ij.2) = false := by
        rw [hcellg, hB, if_pos rfl, hktok]
        exact hbStr k hk
      have hsw : sweepGo g (ij :: rest) = sweepGo g rest := by
        show (if hasBars (cellI g.matrix ij.1 ij.2) = true then _ else sweepGo g rest) = _
        rw [hnb]
        simp
      obtain ⟨ih1, ih2, ih3⟩ := ih B g hm hsh
        ⟨hbM, hbNum, hbStr, hsNe, hnNe, hinj⟩ htok hinv hrest
      refine ⟨?_, ?_, ?_⟩
      · rw [hsw, ih1]
        have hmx : stripB m (unionB B (memPairsB rest)) =
            stripB m (unionB B (memPairsB (ij :: rest))) := by
          apply stripB_congr _ _ hsh
          intro x y hx hy
          simp only [unionB, memPairsB, List.contains_cons]
          by_cases hxy : ((x : Int), (y : Int)) = ij
          · have hex : x = ij.1.toNat ∧ y = ij.2.toNat := by
              have f1 := congrArg Prod.fst hxy
              have f2 := congrArg Prod.snd hxy
              simp only at f1 f2
              omega
            rw [hex.1, hex.2, hB]
            simp
          · rw [beq_eq_false_iff_ne.mpr hxy]
            simp
        rw [hmx]
      · intro z hz
        rw [hsw] at hz
        obtain ⟨xn, yn, h1, h2, h3, h4, h5, h6⟩ := ih2 z hz
        exact ⟨xn, yn, h1, h2, h3, h4, h5, by simp [h6]⟩
      · intro p hp hpB hpz
        rcases List.mem_cons.mp hp with rfl | hp'
        · rw [hB] at hpB
          exact absurd hpB (by simp)
        · rw [hsw]
          exact ih3 p hp' hpB hpz
    · have hBf : B ij.1.toNat ij.2.toNat = false := by
        cases hb2 : B ij.1.toNat ij.2.toNat
        · rfl
        · exact absurd hb2 hB
      have hyb : hasBars (cellI g.matrix ij.1 ij.2) = true := by
        rw [hcellg, hBf]
        simp only [Bool.false_eq_true, if_false]
        rw [hktok]
        exact hbNum k hk
      have hset : setI g.matrix ij.1 ij.2 (slice2 (cellI g.matrix ij.1 ij.2)) =
          stripB m (insertB B ij.1.toNat ij.2.toNat) := by
        rw [hm]
        exact setI_stripB B ij.1 ij.2 hsh hi0 hiR hj0 hjC hBf
      have hsw : sweepGo g (ij :: rest) =
          ((sweepGo ({ g with matrix := stripB m (insertB B ij.1.toNat ij.2.toNat) }) rest).1,
            (if cellI g.matrix ij.1 ij.2 = g.types.numbers.getD 0 [] then [⟨ij.1, ij.2⟩]
              else []) ++
            (sweepGo ({ g with matrix := stripB m (insertB B ij.1.toNat ij.2.toNat) }) rest).2) := by
        show (if hasBars (cellI g.matrix ij.1 ij.2) = true then _ else _) = _
        rw [hyb]
        simp [hset]
      have hinv' : strippedInv m R C g.types (insertB B ij.1.toNat ij.2.toNat) := by
        intro x y hxy
        simp only [insertB, Bool.or_eq_true, Bool.and_eq_true, decide_eq_true_eq] at hxy
        rcases hxy with hxy | ⟨rfl, rfl⟩
        · exact hinv x y hxy
        · exact ⟨by omega, by omega, fun hc => hnm (hcellm.trans hc)⟩
      obtain ⟨ih1, ih2, ih3⟩ := ih (insertB B ij.1.toNat ij.2.toNat)
        ({ g with matrix := stripB m (insertB B ij.1.toNat ij.2.toNat) }) rfl hsh
        ⟨hbM, hbNum, hbStr, hsNe, hnNe, hinj⟩ htok hinv' hrest
      have hBB : stripB m (unionB (insertB B ij.1.toNat ij.2.toNat) (memPairsB rest)) =
          stripB m (unionB B (memPairsB (ij :: rest))) := by
        apply stripB_congr _ _ hsh
        intro x y hx hy
        simp only [unionB, insertB, memPairsB, List.contains_cons]
        by_cases hxy : ((x : Int), (y : Int)) = ij
        · have hex : x = ij.1.toNat ∧ y = ij.2.toNat := by
            have f1 := congrArg Prod.fst hxy
            have f2 := congrArg Prod.snd hxy
            simp only at f1 f2
            omega
          rw [beq_iff_eq.mpr hxy, hex.1, hex.2]
          simp
        · rw [beq_eq_false_iff_ne.mpr hxy]
          have hand : (decide (x = ij.1.toNat) && decide (y = ij.2.toNat)) = false := by
            by_cases h1 : x = ij.1.toNat
            · have h2 : ¬ y = ij.2.toNat := by
                intro h2
                apply hxy
                rw [h1, h2, e1, e2]
              rw [decide_eq_false h2]
              simp
            · rw [decide_eq_false h1]
              simp
          rw [hand]
          simp
      refine ⟨?_, ?_, ?_⟩
      · rw [hsw]
        show (sweepGo _ rest).1 = _
        rw [ih1, hBB]
      · intro z hz
        rw [hsw] at hz
        rcases List.mem_append.mp hz with hz | hz
        · have hzi : cellI g.matrix ij.1 ij.2 = g.types.numbers.getD 0 [] ∧
              z = ⟨ij.1, ij.2⟩ := by
            by_cases hzc : cellI g.matrix ij.1 ij.2 = g.types.numbers.getD 0 []
            · rw [if_pos hzc] at hz
              simp at hz
              exact ⟨hzc, hz⟩
            · rw [if_neg hzc] at hz
              simp at hz
          refine ⟨ij.1.toNat, ij.2.toNat, ?_, by omega, by omega, ?_, hBf, ?_⟩
          · rw [hzi.2, natCell, e1, e2]
          · have h0 := hzi.1
            rw [hcellg, hBf] at h0
            simpa using h0
          · rw [e1, e2]
            simp
        · obtain ⟨xn, yn, h1, h2, h3, h4, h5, h6⟩ := ih2 z hz
          refine ⟨xn, yn, h1, h2, h3, h4, ?_, by simp [h6]⟩
          simp only [insertB, Bool.or_eq_false_iff] at h5
          exact h5.1
      · intro p hp hpB hpz
        rw [hsw]
        rcases List.mem_cons.mp hp with rfl | hp'
        · have hzc : cellI g.matrix p.1 p.2 = g.types.numbers.getD 0 [] := by
            rw [hcellg, hBf]
            simp only [Bool.false_eq_true, if_false]
            rw [← hcellm]
            exact hpz
          rw [if_pos hzc]
          simp
        · obtain ⟨hp0, hpR, hq0, hqC, _⟩ := hrest p hp'
          by_cases hdup : p.1.toNat = ij.1.toNat ∧ p.2.toNat = ij.2.toNat
          · have hpij : p = ij := by
              have g1 : p.1 = ij.1 := by omega
              have g2 : p.2 = ij.2 := by omega
              exact Prod.ext g1 g2
            have hzc : cellI g.matrix ij.1 ij.2 = g.types.numbers.getD 0 [] := by
              rw [hcellg, hBf]
              simp only [Bool.false_eq_true, if_false]
              rw [← hcellm, ← hpij]
              exact hpz
            rw [if_pos hzc]
            rw [hpij]
            simp
          · have hB1 : insertB B ij.1.toNat ij.2.toNat p.1.toNat p.2.toNat = false := by
              simp only [insertB, Bool.or_eq_false_iff]
              refine ⟨hpB, ?_⟩
              by_cases h1 : p.1.toNat = ij.1.toNat
              · have h2 : ¬ p.2.toNat = ij.2.toNat := fun h2 => hdup ⟨h1, h2⟩
                rw [decide_eq_false h2]
                simp
              · rw [decide_eq_false h1]
                simp
            have := ih3 p hp' hB1 hpz
            exact List.mem_append.mpr (Or.inr this)

theorem mem_intRange (lo hi i : Int) : i ∈ intRange lo hi ↔ lo ≤ i ∧ i ≤ hi := by
  rw [intRange]
  constructor
  · intro h
    obtain ⟨k, hk, hEq⟩ := List.mem_map.mp h
    have := List.mem_range.mp hk
    simp only [Int.ofNat_eq_natCast] at hEq
    omega
  · intro ⟨h1, h2⟩
    apply List.mem_map.mpr
    refine ⟨(i - lo).toNat, List.mem_range.mpr (by omega), ?_⟩
    simp only [Int.ofNat_eq_natCast]
    omega

theorem mem_boxPairs (g : Minesweeper) (c : SafeCell) (p : Int × Int) :
    p ∈ boxPairs g c ↔
    (max 0 (c.x - 1) ≤ p.1 ∧ p.1 ≤ min ((g.rows : Int) - 1) (c.x + 1) ∧
     max 0 (c.y - 1) ≤ p.2 ∧ p.2 ≤ min ((g.columns : Int) - 1) (c.y + 1)) := by
  rw [boxPairs]
  constructor
  · intro h
    obtain ⟨i, hi, hp⟩ := List.mem_flatMap.mp h
    obtain ⟨j, hj, rfl⟩ := List.mem_map.mp hp
    have h1 := (mem_intRange _ _ _).mp hi
    have h2 := (mem_intRange _ _ _).mp hj
    exact ⟨h1.1, h1.2, h2.1, h2.2⟩
  · intro ⟨h1, h2, h3, h4⟩
    apply List.mem_flatMap.mpr
    refine ⟨p.1, (mem_intRange _ _ _).mpr ⟨h1, h2⟩, ?_⟩
    apply List.mem_map.mpr
    exact ⟨p.2, (mem_intRange _ _ _).mpr ⟨h3, h4⟩, rfl⟩

theorem ZReach_trans {m : MatrixG} {R C : Nat} {z : Str} {a b c : Nat × Nat}
    (h1 : ZReach m R C z a b) (h2 : ZReach m R C z b c) : ZReach m R C z a c := by
  induction h2 with
  | refl => exact h1
  | step q r hq hd1 hd2 hne hr hc hz ih => exact ZReach.step q r ih hd1 hd2 hne hr hc hz

theorem stripB_false {m : MatrixG} {R C : Nat} (hsh : gridShape m R C) :
    stripB m (fun _ _ => false) = m := by
  obtain ⟨h1, h2⟩ := gridShape_getD hsh
  obtain ⟨s1, s2⟩ := gridShape_getD (stripB_shape (fun _ _ => false) hsh)
  apply matrix_ext
  · omega
  · intro x hx
    rw [s2 x (by omega), h2 x (by omega)]
  · intro x y hx hy
    have hxm : x < m.length := by omega
    have hym : y < (m.getD x []).length := by
      have hs := s2 x (by omega)
      have hh := h2 x (by omega)
      omega
    rw [cellN_stripB _ _ _ hxm hym]
    simp

theorem mineTotal_stripB {m : MatrixG} {R C : Nat} {ts : CellTypes} (B : Nat → Nat → Bool)
    (hsh : gridShape m R C)
    (hty : TypesOk ts)
    (htok : tokensOnly m R C ts)
    (hinv : strippedInv m R C ts B) :
    mineTotal (stripB m B) ts.mine = mineTotal m ts.mine := by
  obtain ⟨h1, h2⟩ := gridShape_getD hsh
  obtain ⟨hbM, hbNum, hbStr, hsNe, hnNe, hinj⟩ := hty
  apply mineTotal_mapGridGo
  intro x y hx hy
  simp only [Nat.zero_add]
  show decide ((if B x y then slice2 (cellN m x y) else cellN m x y) = ts.mine) =
    decide (cellN m x y = ts.mine)
  cases hB : B x y
  · simp
  · rw [if_pos rfl]
    have hxr : x < R := by omega
    have hyc : y < C := by
      have := h2 x hxr
      omega
    obtain ⟨_, _, hnm⟩ := hinv x y hB
    rcases htok x y hxr hyc with hc | ⟨k, hk, hc⟩
    · exact absurd hc hnm
    · rw [hc, decide_eq_false (hsNe k hk), decide_eq_false (hnNe k hk)]

theorem mineTotal_setN_preserve {m : MatrixG} {R C : Nat} {tok : Str} (x y : Nat) (v : Str)
    (hsh : gridShape m R C) (hx : x < R) (hy : y < C)
    (hold : cellN m x y ≠ tok) (hnew : v ≠ tok) :
    mineTotal (setN m x y v) tok = mineTotal m tok := by
  obtain ⟨h1, h2⟩ := gridShape_getD hsh
  have hxm : x < m.length := by omega
  have hym : y < (m.getD x []).length := by
    have := h2 x hx
    omega
  rw [mineTotal, mineTotal, setN, map_set]
  have hs := sum_set (m.map (fun r => r.countP (fun c => decide (c = tok)))) x
    (((m.getD x []).set y v).countP (fun c => decide (c = tok)))
    (by rw [List.length_map]; exact hxm)
  have hgm : (List.map (fun r => List.countP (fun c => decide (c = tok)) r) m).getD x 0 =
      List.countP (fun c => decide (c = tok)) (List.getD m x []) := by
    simpa using getD_map (fun r => List.countP (fun c => decide (c = tok)) r) m x [] hxm
  have hcp := countP_set (fun c => decide (c = tok)) (m.getD x []) y v hym
  simp only [decide_eq_true_eq] at hcp
  rw [if_neg hnew] at hcp
  rw [if_neg (show ¬ List.getD (List.getD m x []) y [] = tok from hold)] at hcp
  rw [hgm] at hs
  omega

theorem memPairsB_true_iff (pairs : List (Int × Int)) (x y : Nat) :
    memPairsB pairs x y = true ↔ ((x : Int), (y : Int)) ∈ pairs := by
  simp [memPairsB, List.contains_iff_exists_mem_beq]

theorem surrSpec_zero (m : MatrixG) (R C : Nat) : SurrSpec m R C 0 := by
  intro B g c E g' _ _ _ _ _ _ _ _ _ _ _ _ _ _ _ hrun
  exact absurd hrun (by simp [revealSurroundings])

theorem listSpec_of_surrSpec (m : MatrixG) (R C n : Nat) (hS : SurrSpec m R C n) :
    ∀ (cs : List SafeCell) (B : Nat → Nat → Bool) (g : Minesweeper) (E : List SafeCell)
      (g' : Minesweeper),
    g.matrix = stripB m B →
    g.rows = R → g.columns = C →
    gridShape m R C →
    TypesOk g.types →
    tokensOnly m R C g.types →
    zeroIsolated m R C g.types →
    strippedInv m R C g.types B →
    (∀ c ∈ cs, 0 ≤ c.x ∧ c.x < (R : Int) ∧ 0 ≤ c.y ∧ c.y < (C : Int) ∧
      cellI m c.x c.y = g.types.numbers.getD 0 [] ∧ B c.x.toNat c.y.toNat = true) →
    (∀ x y, B x y = true → cellN m x y = g.types.numbers.getD 0 [] →
      ¬ boxClosed R C B x y → natCell x y ∈ cs ∨ natCell x y ∈ E) →
    revealSurrList n g cs = some g' →
    ∃ B', g' = { g with matrix := stripB m B' } ∧
      (∀ x y, B x y = true → B' x y = true) ∧
      strippedInv m R C g.types B' ∧
      (∀ x y, B' x y = true → cellN m x y = g.types.numbers.getD 0 [] →
        ¬ boxClosed R C B' x y → natCell x y ∈ E) ∧
      (∀ x y, B' x y = true → B x y = true ∨ ∃ c ∈ cs,
        revealTarget m R C (g.types.numbers.getD 0 []) (c.x.toNat, c.y.toNat) (x, y)) := by
  intro cs
  induction cs with
  | nil =>
    intro B g E g' hm hr hc hsh hty htok hiso hinv hcs hdef hrun
    have hg : g = g' := by simpa [revealSurrList] using hrun
    subst hg
    refine ⟨B, ?_, fun x y h => h, hinv, ?_, fun x y hB => Or.inl hB⟩
    · rw [← hm]
    · intro x y hB hz hcl
      rcases hdef x y hB hz hcl with hmem | hmem
      · exact absurd hmem (by simp)
      · exact hmem
  | cons c rest ih =>
    intro B g E g' hm hr hc hsh hty htok hiso hinv hcs hdef hrun
    rw [revealSurrList] at hrun
    cases hsr : revealSurroundings n g c true with
    | none => rw [hsr] at hrun; exact absurd hrun (by simp)
    | some g1 =>
      rw [hsr] at hrun
      obtain ⟨h1, h2, h3, h4, h5, h6⟩ := hcs c (by simp)
      obtain ⟨B1, hEq1, hMono1, hInv1, hBox1, hDef1, hSound1⟩ :=
        hS B g c (rest ++ E) g1 hm hr hc hsh hty htok hiso hinv h1 h2 h3 h4 h5 h6
          (fun x y hB hz hcl => by
            rcases hdef x y hB hz hcl with hmem | hmem
            · rcases List.mem_cons.mp hmem with hmem | hmem
              · exact Or.inl hmem
              · exact Or.inr (List.mem_append.mpr (Or.inl hmem))
            · exact Or.inr (List.mem_append.mpr (Or.inr hmem)))
          hsr
      rw [hEq1] at hrun
      obtain ⟨B', hEq', hMono', hInv', hDef', hSound'⟩ :=
        ih B1 ({ g with matrix := stripB m B1 }) E g' rfl hr hc hsh hty htok hiso hInv1
          (fun c' hc' => by
            obtain ⟨k1, k2, k3, k4, k5, k6⟩ := hcs c' (by simp [hc'])
            exact ⟨k1, k2, k3, k4, k5, hMono1 _ _ k6⟩)
          (fun x y hB hz hcl => by
            rcases List.mem_append.mp (hDef1 x y hB hz hcl) with hmem | hmem
            · exact Or.inl hmem
            · exact Or.inr hmem)
          hrun
      refine ⟨B', hEq', fun x y hB => hMono' x y (hMono1 x y hB), hInv', hDef', ?_⟩
      intro x y hB'
      rcases hSound' x y hB' with hB1 | hex
      · rcases hSound1 x y hB1 with hB | htgt
        · exact Or.inl hB
        · exact Or.inr ⟨c, by simp, htgt⟩
      · obtain ⟨c', hc', htgt⟩ := hex
        exact Or.inr ⟨c', by simp [hc'], htgt⟩

theorem surrSpec_succ (m : MatrixG) (R C n : Nat) (hS : SurrSpec m R C n) :
    SurrSpec m R C (n + 1) := by
  have hL := listSpec_of_surrSpec m R C n hS
  intro B g c E g' hm hr hc hsh hty htok hiso hinv hcx0 hcxR hcy0 hcyC hz hcB hdef hrun
  simp only [revealSurroundings, if_true] at hrun
  have e1 : ((c.x.toNat : Nat) : Int) = c.x := by omega
  have e2 : ((c.y.toNat : Nat) : Int) = c.y := by omega
  have hzN : cellN m c.x.toNat c.y.toNat = g.types.numbers.getD 0 [] := by
    rw [← cellI_inb _ _ _ hcx0 hcy0]
    exact hz
  have hbox : ∀ p : Int × Int, p ∈ boxPairs g c ↔
      (max 0 (c.x - 1) ≤ p.1 ∧ p.1 ≤ min ((R : Int) - 1) (c.x + 1) ∧
       max 0 (c.y - 1) ≤ p.2 ∧ p.2 ≤ min ((C : Int) - 1) (c.y + 1)) := by
    intro p
    rw [mem_boxPairs, hr, hc]
  have hnmbox : ∀ p ∈ boxPairs g c, 0 ≤ p.1 ∧ p.1 < (R : Int) ∧ 0 ≤ p.2 ∧ p.2 < (C : Int) ∧
      cellI m p.1 p.2 ≠ g.types.mine := by
    intro p hp
    obtain ⟨b1, b2, b3, b4⟩ := (hbox p).mp hp
    have m1 := le_trans (le_max_left 0 (c.x - 1)) b1
    have m2 := le_trans b2 (min_le_left ((R : Int) - 1) (c.x + 1))
    have m3 := le_trans (le_max_left 0 (c.y - 1)) b3
    have m4 := le_trans b4 (min_le_left ((C : Int) - 1) (c.y + 1))
    have m5 := le_trans (le_max_right 0 (c.x - 1)) b1
    have m6 := le_trans b2 (min_le_right ((R : Int) - 1) (c.x + 1))
    have m7 := le_trans (le_max_right 0 (c.y - 1)) b3
    have m8 := le_trans b4 (min_le_right ((C : Int) - 1) (c.y + 1))
    refine ⟨by omega, by omega, by omega, by omega, ?_⟩
    have hne := hiso c.x.toNat c.y.toNat (by omega) (by omega) hzN p.1.toNat p.2.toNat
      (by omega) (by omega) (by omega) (by omega)
    rw [cellI_inb _ _ _ (by omega) (by omega)]
    exact hne
  obtain ⟨hsw1, hsw2, hsw3⟩ := sweepGo_spec m R C (boxPairs g c) B g hm hsh hty htok hinv hnmbox
  rw [hsw1] at hrun
  have hInvB1 : strippedInv m R C g.types (unionB B (memPairsB (boxPairs g c))) := by
    intro x y hxy
    simp only [unionB, Bool.or_eq_true] at hxy
    rcases hxy with hxy | hxy
    · exact hinv x y hxy
    · have hp := (memPairsB_true_iff _ _ _).mp hxy
      obtain ⟨b0, bR, c0, cC, hnm⟩ := hnmbox _ hp
      simp only at b0 bR c0 cC hnm
      refine ⟨by omega, by omega, ?_⟩
      intro hcm
      apply hnm
      rw [cellI_inb _ _ _ b0 c0]
      simpa using hcm
  have hMonoB1 : ∀ x y, B x y = true → unionB B (memPairsB (boxPairs g c)) x y = true :=
    fun x y h => by simp [unionB, h]
  have hBoxB1 : ∀ u v : Nat, u < R → v < C → ((u : Int) - c.x).natAbs ≤ 1 →
      ((v : Int) - c.y).natAbs ≤ 1 → unionB B (memPairsB (boxPairs g c)) u v = true := by
    intro u v hu hv hd1 hd2
    have hmem : (((u : Nat) : Int), ((v : Nat) : Int)) ∈ boxPairs g c := by
      rw [hbox]
      exact ⟨max_le_iff.mpr ⟨by omega, by omega⟩, le_min_iff.mpr ⟨by omega, by omega⟩,
        max_le_iff.mpr ⟨by omega, by omega⟩, le_min_iff.mpr ⟨by omega, by omega⟩⟩
    simp [unionB, (memPairsB_true_iff _ _ _).mpr hmem]
  obtain ⟨B', hEq', hMono', hInv', hDef', hSound'⟩ :=
    hL (sweepGo g (boxPairs g c)).2 (unionB B (memPairsB (boxPairs g c)))
      ({ g with matrix := stripB m (unionB B (memPairsB (boxPairs g c))) }) E g' rfl hr hc
      hsh hty htok hiso hInvB1
      (fun z hzm => by
        obtain ⟨xn, yn, rfl, hxnR, hynC, hzn, hBf, hmem⟩ := hsw2 z hzm
        refine ⟨by simp [natCell], by simp [natCell]; omega, by simp [natCell],
          by simp [natCell]; omega, ?_, ?_⟩
        · show cellI m ((xn : Int)) ((yn : Int)) = _
          rw [cellI_inb _ _ _ (by omega) (by omega)]
          simpa using hzn
        · show unionB B (memPairsB (boxPairs g c)) ((xn : Int)).toNat ((yn : Int)).toNat = true
          have hxt : ((xn : Int)).toNat = xn := by omega
          have hyt : ((yn : Int)).toNat = yn := by omega
          rw [hxt, hyt]
          simp [unionB, (memPairsB_true_iff _ _ _).mpr hmem])
      (fun x y hB1 hz0 hncl => by
        by_cases hB : B x y = true
        · have hnclB : ¬ boxClosed R C B x y := by
            intro hclB
            exact hncl (fun u v hu hv h1 h2 => hMonoB1 u v (hclB u v hu hv h1 h2))
          rcases hdef x y hB hz0 hnclB with hcc | hE
          · exfalso
            apply hncl
            intro u v hu hv hd1 hd2
            have hcx : c.x = (x : Int) := by rw [← hcc]; rfl
            have hcy : c.y = (y : Int) := by rw [← hcc]; rfl
            exact hBoxB1 u v hu hv (by rw [hcx]; exact hd1) (by rw [hcy]; exact hd2)
          · exact Or.inr hE
        · have hBf : B x y = false := by
            cases h : B x y
            · rfl
            · exact absurd h hB
          have hmem : ((x : Int), (y : Int)) ∈ boxPairs g c := by
            have h2 := hB1
            simp only [unionB, hBf, Bool.false_or] at h2
            exact (memPairsB_true_iff _ _ _).mp h2
          have hzs := hsw3 ((x : Int), (y : Int)) hmem
            (by simp [hBf]) (by rw [cellI_inb _ _ _ (by omega) (by omega)]; simpa using hz0)
          exact Or.inl hzs)
      hrun
  refine ⟨B', hEq', fun x y hB => hMono' x y (hMonoB1 x y hB), hInv', ?_, hDef', ?_⟩
  · intro u v hu hv hd1 hd2
    exact hMono' u v (hBoxB1 u v hu hv hd1 hd2)
  · intro x y hB'
    rcases hSound' x y hB' with hB1 | hex
    · simp only [unionB, Bool.or_eq_true] at hB1
      rcases hB1 with hB | hmem
      · exact Or.inl hB
      · apply Or.inr
        have hbb := (hbox _).mp ((memPairsB_true_iff _ _ _).mp hmem)
        obtain ⟨b1, b2, b3, b4⟩ := hbb
        have m1 := le_trans (le_max_left 0 (c.x - 1)) b1
        have m2 := le_trans b2 (min_le_left ((R : Int) - 1) (c.x + 1))
        have m5 := le_trans (le_max_right 0 (c.x - 1)) b1
        have m6 := le_trans b2 (min_le_right ((R : Int) - 1) (c.x + 1))
        have m3 := le_trans (le_max_left 0 (c.y - 1)) b3
        have m4 := le_trans b4 (min_le_left ((C : Int) - 1) (c.y + 1))
        have m7 := le_trans (le_max_right 0 (c.y - 1)) b3
        have m8 := le_trans b4 (min_le_right ((C : Int) - 1) (c.y + 1))
        simp only at m1 m2 m3 m4 m5 m6 m7 m8
        exact ⟨by omega, by omega, (c.x.toNat, c.y.toNat), ZReach.refl,
          by simp only; omega, by simp only; omega⟩
    · obtain ⟨z, hzm, htgt⟩ := hex
      apply Or.inr
      obtain ⟨xn, yn, rfl, hxnR, hynC, hzn, hBf, hmem⟩ := hsw2 z hzm
      have hbb := (hbox _).mp hmem
      obtain ⟨b1, b2, b3, b4⟩ := hbb
      have m1 := le_trans (le_max_right 0 (c.x - 1)) b1
      have m2 := le_trans b2 (min_le_right ((R : Int) - 1) (c.x + 1))
      have m3 := le_trans (le_max_right 0 (c.y - 1)) b3
      have m4 := le_trans b4 (min_le_right ((C : Int) - 1) (c.y + 1))
      simp only at m1 m2 m3 m4
      have hneq : (c.x.toNat, c.y.toNat) ≠ (xn, yn) := by
        intro hq
        have hq1 : c.x.toNat = xn := congrArg Prod.fst hq
        have hq2 : c.y.toNat = yn := congrArg Prod.snd hq
        rw [← hq1, ← hq2] at hBf
        rw [hcB] at hBf
        exact absurd hBf (by simp)
      have hreach : ZReach m R C (g.types.numbers.getD 0 [])
          (c.x.toNat, c.y.toNat) (xn, yn) := by
        refine ZReach.step (c.x.toNat, c.y.toNat) (xn, yn) ZReach.refl ?_ ?_ hneq hxnR hynC hzn
        · show ((c.x.toNat : Int) - (xn : Int)).natAbs ≤ 1
          omega
        · show ((c.y.toNat : Int) - (yn : Int)).natAbs ≤ 1
          omega
      have htg2 : (natCell xn yn).x.toNat = xn ∧ (natCell xn yn).y.toNat = yn := by
        constructor <;> simp [natCell]
      rw [htg2.1, htg2.2] at htgt
      obtain ⟨ht1, ht2, p, hp1, hp2, hp3⟩ := htgt
      exact ⟨ht1, ht2, p, ZReach_trans hreach hp1, hp2, hp3⟩

theorem floodSpec (m : MatrixG) (R C : Nat) : ∀ n, SurrSpec m R C n := by
  intro n
  induction n with
  | zero => exact surrSpec_zero m R C
  | succ k ih => exact surrSpec_succ m R C k ih

theorem safeRowGo_mem (mine : Str) (x : Nat) : ∀ (r : Row) (y0 : Nat) (s : SafeCell),
    s ∈ safeRowGo mine x y0 r →
    ∃ yn, s = (⟨(x : Int), ((y0 + yn : Nat) : Int)⟩ : SafeCell) ∧ yn < r.length ∧
      r.getD yn [] ≠ mine := by
  intro r
  induction r with
  | nil => intro y0 s h; simp [safeRowGo] at h
  | cons a as ih =>
    intro y0 s h
    rw [safeRowGo] at h
    rcases List.mem_append.mp h with h | h
    · by_cases ha : a = mine
      · rw [if_pos ha] at h
        simp at h
      · rw [if_neg ha] at h
        simp at h
        exact ⟨0, by rw [h]; rfl, by simp, by simpa using ha⟩
    · obtain ⟨yn, hs, hlt, hcell⟩ := ih (y0 + 1) s h
      refine ⟨yn + 1, ?_, by simpa using Nat.succ_lt_succ hlt, by simpa using hcell⟩
      rw [hs]
      have : y0 + 1 + yn = y0 + (yn + 1) := by omega
      rw [this]

theorem safeGridGo_mem (mine : Str) : ∀ (m : MatrixG) (x0 : Nat) (s : SafeCell),
    s ∈ safeGridGo mine x0 m →
    ∃ xn yn, s = natCell (x0 + xn) yn ∧ xn < m.length ∧
      yn < (m.getD xn []).length ∧ cellN m xn yn ≠ mine := by
  intro m
  induction m with
  | nil => intro x0 s h; simp [safeGridGo] at h
  | cons r rs ih =>
    intro x0 s h
    rw [safeGridGo] at h
    rcases List.mem_append.mp h with h | h
    · obtain ⟨yn, hs, hlt, hcell⟩ := safeRowGo_mem mine x0 r 0 s h
      exact ⟨0, yn, by rw [hs]; simp [natCell], by simp, by simpa using hlt, by simpa [cellN] using hcell⟩
    · obtain ⟨xn, yn, hs, hx, hy, hcell⟩ := ih (x0 + 1) s h
      refine ⟨xn + 1, yn, ?_, by simpa using Nat.succ_lt_succ hx, by simpa using hy,
        by simpa [cellN] using hcell⟩
      rw [hs]
      have : x0 + 1 + xn = x0 + (xn + 1) := by omega
      rw [this]

theorem revealFirstEmptyCrash (fuel : Nat) (g : Minesweeper) (h1 : g.revealFirstCell = true)
    (h2 : g.safeCells = []) : revealFirst fuel g = .crash := by
  simp [revealFirst, h1, h2, draw, floorMul]

theorem revealFirst_else_spec (fuel : Nat) (g : Minesweeper) (c : SafeCell)
    (g' : Minesweeper)
    (hrfc : g.revealFirstCell = true)
    (hzf : g.zeroFirstCell = false ∨
      g.safeCells.filter
        (fun s => cellI g.matrix s.x s.y = g.types.numbers.getD 0 []) = [])
    (hne : g.safeCells ≠ [])
    (hrng : rngOk g)
    (hrun : revealFirst fuel g = .ok (c, g')) :
    c ∈ g.safeCells ∧
    g' = { g with
      rngIdx := g.rngIdx + 1
      matrix := setI g.matrix c.x c.y (slice2 (cellI g.matrix c.x c.y)) } := by
  have hcond : (g.zeroFirstCell &&
      decide (0 < (g.safeCells.filter
        (fun s => cellI g.matrix s.x s.y = g.types.numbers.getD 0 [])).length)) = false := by
    rcases hzf with hzf | hzf
    · rw [hzf]
      simp
    · rw [hzf]
      simp
  rw [revealFirst, hrfc] at hrun
  simp only [Bool.not_true, Bool.false_eq_true, if_false, hcond] at hrun
  have hlen : 0 < g.safeCells.length := List.length_pos.mpr hne
  have hidx : floorMul (g.rng g.rngIdx) g.safeCells.length < g.safeCells.length :=
    floorMul_lt _ _ (hrng g.rngIdx) hlen
  simp only [draw] at hrun
  rw [List.getElem?_eq_getElem hidx] at hrun
  simp only [RunRes.ok.injEq, Prod.mk.injEq] at hrun
  obtain ⟨hc, hg⟩ := hrun
  subst hc
  exact ⟨List.getElem_mem hidx, hg.symm⟩

theorem revealFirst_zero_spec (fuel : Nat) (g : Minesweeper) (c : SafeCell)
    (g' : Minesweeper)
    (hsh : gridShape g.matrix g.rows g.columns)
    (hty : TypesOk g.types)
    (htok : tokensOnly g.matrix g.rows g.columns g.types)
    (hiso : zeroIsolated g.matrix g.rows g.columns g.types)
    (hrfc : g.revealFirstCell = true)
    (hzfc : g.zeroFirstCell = true)
    (hsafe : ∀ s ∈ g.safeCells, 0 ≤ s.x ∧ s.x < (g.rows : Int) ∧ 0 ≤ s.y ∧
      s.y < (g.columns : Int))
    (hzne : g.safeCells.filter
      (fun s => cellI g.matrix s.x s.y = g.types.numbers.getD 0 []) ≠ [])
    (hrng : rngOk g)
    (hrun : revealFirst fuel g = .ok (c, g')) :
    (0 ≤ c.x ∧ c.x < (g.rows : Int) ∧ 0 ≤ c.y ∧ c.y < (g.columns : Int)) ∧
    cellI g.matrix c.x c.y = g.types.numbers.getD 0 [] ∧
    ∃ B', g' = { g with
        rngIdx := g.rngIdx + 1
        matrix := stripB g.matrix B' } ∧
      strippedInv g.matrix g.rows g.columns g.types B' ∧
      (∀ x y, x < g.rows → y < g.columns →
        (B' x y = true ↔
          revealTarget g.matrix g.rows g.columns (g.types.numbers.getD 0 [])
            (c.x.toNat, c.y.toNat) (x, y))) := by
  obtain ⟨hbM, hbNum, hbStr, hsNe, hnNe, hinj⟩ := hty
  have hlen : 0 < (g.safeCells.filter
      (fun s => cellI g.matrix s.x s.y = g.types.numbers.getD 0 [])).length :=
    List.length_pos.mpr hzne
  rw [revealFirst, hrfc] at hrun
  simp only [Bool.not_true, Bool.false_eq_true, if_false, hzfc, decide_eq_true hlen,
    Bool.and_self, if_true, draw] at hrun
  split at hrun
  · rename_i hnone
    have hidx := floorMul_lt (g.rng g.rngIdx) _ (hrng g.rngIdx) hlen
    rw [List.getElem?_eq_getElem hidx] at hnone
    exact absurd hnone (by simp)
  · rename_i sc hsome
    have hscm : sc ∈ g.safeCells.filter
        (fun s => cellI g.matrix s.x s.y = g.types.numbers.getD 0 []) := by
      obtain ⟨hlt, hEq⟩ := List.getElem?_eq_some.mp hsome
      exact hEq ▸ List.getElem_mem hlt
    obtain ⟨hscsafe, hscz⟩ := List.mem_filter.mp hscm
    rw [decide_eq_true_eq] at hscz
    obtain ⟨b1, b2, b3, b4⟩ := hsafe _ hscsafe
    have e1 : ((sc.x.toNat : Nat) : Int) = sc.x := by omega
    have e2 : ((sc.y.toNat : Nat) : Int) = sc.y := by omega
    have hzn : cellN g.matrix sc.x.toNat sc.y.toNat = g.types.numbers.getD 0 [] := by
      rw [← cellI_inb _ _ _ b1 b3]
      exact hscz
    split at hrun
    · exact absurd hrun (by simp)
    · rename_i g3 hfs
      simp only [RunRes.ok.injEq, Prod.mk.injEq] at hrun
      obtain ⟨hc, hg3⟩ := hrun
      subst hc
      have hsetB : setI g.matrix sc.x sc.y (slice2 (cellI g.matrix sc.x sc.y)) =
          stripB g.matrix (insertB (fun _ _ => false) sc.x.toNat sc.y.toNat) := by
        have h1 := setI_stripB (m := g.matrix) (R := g.rows) (C := g.columns)
          (fun _ _ => false) sc.x sc.y hsh b1 b2 b3 b4 rfl
        rw [stripB_false hsh] at h1
        exact h1
      rw [hsetB] at hfs
      have hnm0 : cellN g.matrix sc.x.toNat sc.y.toNat ≠ g.types.mine := by
        rw [hzn]
        exact hnNe 0 (by omega)
      obtain ⟨B', hEq, hMono, hInv, hBox, hDef, hSound⟩ :=
        floodSpec g.matrix g.rows g.columns fuel
          (insertB (fun _ _ => false) sc.x.toNat sc.y.toNat)
          ({ g with
            zeroFirstCell := true
            rngIdx := g.rngIdx + 1
            matrix := stripB g.matrix (insertB (fun _ _ => false) sc.x.toNat sc.y.toNat) })
          sc [] g3 rfl rfl rfl hsh
          ⟨hbM, hbNum, hbStr, hsNe, hnNe, hinj⟩ htok hiso
          (by
            intro x y hxy
            simp only [insertB, Bool.false_or, Bool.and_eq_true, decide_eq_true_eq] at hxy
            obtain ⟨rfl, rfl⟩ := hxy
            exact ⟨by omega, by omega, hnm0⟩)
          b1 b2 b3 b4 hscz
          (by simp [insertB])
          (by
            intro x y hxy hz0 hncl
            simp only [insertB, Bool.false_or, Bool.and_eq_true, decide_eq_true_eq] at hxy
            obtain ⟨rfl, rfl⟩ := hxy
            left
            rw [natCell, e1, e2])
          hfs
      refine ⟨⟨b1, b2, b3, b4⟩, hscz, B', ?_, hInv, ?_⟩
      · rw [← hg3, hzfc]
        exact hEq
      · intro x y hx hy
        constructor
        · intro hB'
          rcases hSound x y hB' with hB0 | htgt
          · simp only [insertB, Bool.false_or, Bool.and_eq_true, decide_eq_true_eq] at hB0
            obtain ⟨rfl, rfl⟩ := hB0
            exact ⟨hx, hy, (sc.x.toNat, sc.y.toNat), ZReach.refl, by simp, by simp⟩
          · exact htgt
        · intro htgt
          obtain ⟨hxR, hyC, p, hp, hc1, hc2⟩ := htgt
          have hclosure : ∀ p : Nat × Nat,
              ZReach g.matrix g.rows g.columns (g.types.numbers.getD 0 [])
                (sc.x.toNat, sc.y.toNat) p →
              ∀ u v : Nat, u < g.rows → v < g.columns →
                ((u : Int) - (p.1 : Int)).natAbs ≤ 1 →
                ((v : Int) - (p.2 : Int)).natAbs ≤ 1 → B' u v = true := by
            intro p hp
            induction hp with
            | refl =>
              intro u v hu hv h1 h2
              apply hBox u v hu hv
              · show ((u : Int) - sc.x).natAbs ≤ 1
                omega
              · show ((v : Int) - sc.y).natAbs ≤ 1
                omega
            | step q r hq hd1 hd2 hne hrR hrC hz ih =>
              intro u v hu hv h1 h2
              have hBr : B' r.1 r.2 = true := ih r.1 r.2 hrR hrC (by omega) (by omega)
              have hcl : boxClosed g.rows g.columns B' r.1 r.2 := by
                by_contra hncl
                have hmem := hDef r.1 r.2 hBr hz hncl
                simp at hmem
              exact hcl u v hu hv h1 h2
          exact hclosure p hp x y hxR hyC (by omega) (by omega)

theorem mineCounter_le_8 (g : Minesweeper) (x y : Nat) (hx : x < g.rows)
    (hy : y < g.columns) : mineCounter g x y ≤ 8 := by
  rw [mineCounter_eq_moore g x y hx hy]
  calc mooreMineCount g x y ≤ (mooreNeighbors x y).length := List.countP_le_length _
  _ = 8 := rfl

theorem populate_tokensOnly (g : Minesweeper)
    (hsh : gridShape g.matrix g.rows g.columns) :
    tokensOnly (populate g).matrix g.rows g.columns g.types := by
  obtain ⟨h1, h2⟩ := gridShape_getD hsh
  intro x y hx hy
  have hx' : x < g.matrix.length := by omega
  have hy' : y < (g.matrix.getD x []).length := by
    have := h2 x hx
    omega
  rw [populate_cellN g x y hx' hy', getNumberOfMines]
  by_cases hm : cellN g.matrix x y = g.types.mine
  · rw [if_pos hm]
    exact Or.inl rfl
  · rw [if_neg hm]
    exact Or.inr ⟨mineCounter g x y, mineCounter_le_8 g x y hx hy, rfl⟩

theorem mooreCount_zero_no_mine (g : Minesweeper) (x y : Nat)
    (_hx : x < g.rows) (_hy : y < g.columns)
    (h0 : mooreMineCount g x y = 0)
    (u v : Nat) (hu : u < g.rows) (hv : v < g.columns)
    (hd1 : ((u : Int) - (x : Int)).natAbs ≤ 1) (hd2 : ((v : Int) - (y : Int)).natAbs ≤ 1)
    (hne : (u, v) ≠ (x, y)) :
    cellN g.matrix u v ≠ g.types.mine := by
  intro hmine
  have hmem : ((u : Int), (v : Int)) ∈ mooreNeighbors x y := by
    have hdu : (u : Int) - (x : Int) = -1 ∨ (u : Int) - (x : Int) = 0 ∨
        (u : Int) - (x : Int) = 1 := by omega
    have hdv : (v : Int) - (y : Int) = -1 ∨ (v : Int) - (y : Int) = 0 ∨
        (v : Int) - (y : Int) = 1 := by omega
    have hnv : ¬((u : Int) - (x : Int) = 0 ∧ (v : Int) - (y : Int) = 0) := by
      intro ⟨hh1, hh2⟩
      apply hne
      have : u = x := by omega
      have : v = y := by omega
      simp_all
    have hpair : ∀ a b : Int, (u : Int) = a → (v : Int) = b →
        (a, b) ∈ mooreNeighbors x y → ((u : Int), (v : Int)) ∈ mooreNeighbors x y := by
      intro a b ha hb hm2
      rw [ha, hb]
      exact hm2
    rcases hdu with h | h | h <;> rcases hdv with h' | h' | h'
    · exact hpair ((x : Int) - 1) ((y : Int) - 1) (by omega) (by omega) (by simp [mooreNeighbors])
    · exact hpair ((x : Int) - 1) ((y : Int)) (by omega) (by omega) (by simp [mooreNeighbors])
    · exact hpair ((x : Int) - 1) ((y : Int) + 1) (by omega) (by omega) (by simp [mooreNeighbors])
    · exact hpair ((x : Int)) ((y : Int) - 1) (by omega) (by omega) (by simp [mooreNeighbors])
    · exact absurd ⟨h, h'⟩ hnv
    · exact hpair ((x : Int)) ((y : Int) + 1) (by omega) (by omega) (by simp [mooreNeighbors])
    · exact hpair ((x : Int) + 1) ((y : Int) - 1) (by omega) (by omega) (by simp [mooreNeighbors])
    · exact hpair ((x : Int) + 1) ((y : Int)) (by omega) (by omega) (by simp [mooreNeighbors])
    · exact hpair ((x : Int) + 1) ((y : Int) + 1) (by omega) (by omega) (by simp [mooreNeighbors])
  have hcnt := List.countP_eq_zero.mp h0 _ hmem
  apply hcnt
  simp only [Bool.and_eq_true, decide_eq_true_eq]
  refine ⟨⟨by omega, by omega, by omega, by omega⟩, ?_⟩
  rw [cellI_inb _ _ _ (by omega) (by omega)]
  simpa using hmine

theorem populate_zeroIsolated (g : Minesweeper)
    (hsh : gridShape g.matrix g.rows g.columns) (hty : TypesOk g.types) :
    zeroIsolated (populate g).matrix g.rows g.columns g.types := by
  obtain ⟨hbM, hbNum, hbStr, hsNe, hnNe, hinj⟩ := hty
  obtain ⟨h1, h2⟩ := gridShape_getD hsh
  intro x y hx hy hz u v hu hv hd1 hd2
  have hx' : x < g.matrix.length := by omega
  have hy' : y < (g.matrix.getD x []).length := by
    have := h2 x hx
    omega
  have hu' : u < g.matrix.length := by omega
  have hv' : v < (g.matrix.getD u []).length := by
    have := h2 u hu
    omega
  rw [populate_cellN g x y hx' hy', getNumberOfMines] at hz
  by_cases hm : cellN g.matrix x y = g.types.mine
  · rw [if_pos hm] at hz
    exact absurd hz.symm (hnNe 0 (by omega))
  · rw [if_neg hm] at hz
    have hcnt0 : mooreMineCount g x y = 0 := by
      have := hinj (mineCounter g x y) 0 (mineCounter_le_8 g x y hx hy) (by omega) hz
      rw [← mineCounter_eq_moore g x y hx hy]
      exact this
    rw [populate_cellN g u v hu' hv', getNumberOfMines]
    by_cases hmu : cellN g.matrix u v = g.types.mine
    · exfalso
      by_cases hne : (u, v) = (x, y)
      · have hu1 : u = x := congrArg Prod.fst hne
        have hv1 : v = y := congrArg Prod.snd hne
        rw [hu1, hv1] at hmu
        exact hm hmu
      · exact mooreCount_zero_no_mine g x y hx hy hcnt0 u v hu hv hd1 hd2 hne hmu
    · rw [if_neg hmu]
      exact hnNe (mineCounter g u v) (mineCounter_le_8 g u v hu hv)

theorem populate_safeCells (g : Minesweeper)
    (hsh : gridShape g.matrix g.rows g.columns) (hsc0 : g.safeCells = []) :
    ∀ s ∈ (populate g).safeCells,
      (0 ≤ s.x ∧ s.x < (g.rows : Int) ∧ 0 ≤ s.y ∧ s.y < (g.columns : Int)) ∧
      ∃ k, k ≤ 8 ∧ cellI (populate g).matrix s.x s.y = g.types.numbers.getD k [] := by
  obtain ⟨h1, h2⟩ := gridShape_getD hsh
  intro s hs
  have hs2 : s ∈ g.safeCells ++ safeGridGo g.types.mine 0 g.matrix := hs
  rw [hsc0, List.nil_append] at hs2
  obtain ⟨xn, yn, hEq, hxn, hyn, hnm⟩ := safeGridGo_mem g.types.mine g.matrix 0 s hs2
  have hxr : xn < g.rows := by omega
  have hyc : yn < g.columns := by
    have := h2 xn hxr
    omega
  have hcell : cellI (populate g).matrix s.x s.y =
      g.types.numbers.getD (mineCounter g xn yn) [] := by
    rw [hEq]
    show cellI (populate g).matrix ((0 + xn : Nat) : Int) ((yn : Nat) : Int) = _
    rw [cellI_inb _ _ _ (by omega) (by omega)]
    have ex : ((((0 + xn : Nat)) : Int)).toNat = xn := by omega
    have ey : (((yn : Nat)) : Int).toNat = yn := by omega
    rw [ex, ey, populate_cellN g xn yn hxn hyn, getNumberOfMines, if_neg hnm]
  refine ⟨?_, mineCounter g xn yn, mineCounter_le_8 g xn yn hxr hyc, hcell⟩
  rw [hEq]
  refine ⟨by simp [natCell], ?_, by simp [natCell], ?_⟩
  · show (((0 + xn : Nat) : Int)) < (g.rows : Int)
    omega
  · show (((yn : Nat)) : Int) < (g.columns : Int)
    omega

theorem revealFirst_preserves (fuel : Nat) (g : Minesweeper) (c : SafeCell)
    (g' : Minesweeper)
    (hsh : gridShape g.matrix g.rows g.columns)
    (hty : TypesOk g.types)
    (htok : tokensOnly g.matrix g.rows g.columns g.types)
    (hiso : zeroIsolated g.matrix g.rows g.columns g.types)
    (hsafe : ∀ s ∈ g.safeCells,
      (0 ≤ s.x ∧ s.x < (g.rows : Int) ∧ 0 ≤ s.y ∧ s.y < (g.columns : Int)) ∧
      ∃ k, k ≤ 8 ∧ cellI g.matrix s.x s.y = g.types.numbers.getD k [])
    (hrng : rngOk g)
    (hrun : revealFirst fuel g = .ok (c, g')) :
    gridShape g'.matrix g.rows g.columns ∧
    mineTotal g'.matrix g.types.mine = mineTotal g.matrix g.types.mine ∧
    g'.rows = g.rows ∧ g'.columns = g.columns ∧ g'.types = g.types ∧
    g'.returnType = g.returnType ∧ g'.spaces = g.spaces := by
  by_cases hrfc : g.revealFirstCell = true
  · by_cases hempty : g.safeCells = []
    · rw [revealFirstEmptyCrash fuel g hrfc hempty] at hrun
      exact absurd hrun (by simp)
    · by_cases hcond : g.zeroFirstCell = true ∧
          g.safeCells.filter
            (fun s => cellI g.matrix s.x s.y = g.types.numbers.getD 0 []) ≠ []
      · obtain ⟨hz1, hz2⟩ := hcond
        obtain ⟨hb, hcz, B', hEq, hInv, hIff⟩ :=
          revealFirst_zero_spec fuel g c g' hsh hty htok hiso hrfc hz1
            (fun s hsm => (hsafe s hsm).1) hz2 hrng hrun
        subst hEq
        refine ⟨stripB_shape B' hsh, ?_, rfl, rfl, rfl, rfl, rfl⟩
        exact mineTotal_stripB B' hsh hty htok hInv
      · have hzf : g.zeroFirstCell = false ∨
            g.safeCells.filter
              (fun s => cellI g.matrix s.x s.y = g.types.numbers.getD 0 []) = [] := by
          by_cases hz : g.zeroFirstCell = true
          · right
            by_contra hf
            exact hcond ⟨hz, hf⟩
          · left
            cases hzc : g.zeroFirstCell
            · rfl
            · exact absurd hzc hz
        obtain ⟨hcm, hEq⟩ := revealFirst_else_spec fuel g c g' hrfc hzf hempty hrng hrun
        subst hEq
        obtain ⟨⟨cb1, cb2, cb3, cb4⟩, k, hk, hck⟩ := hsafe c hcm
        obtain ⟨hbM, hbNum, hbStr, hsNe, hnNe, hinj⟩ := hty
        have hcellN : cellI g.matrix c.x c.y = cellN g.matrix c.x.toNat c.y.toNat :=
          cellI_inb _ _ _ cb1 cb3
        have hxr : c.x.toNat < g.rows := by omega
        have hyc : c.y.toNat < g.columns := by omega
        have hsn : setI g.matrix c.x c.y (slice2 (cellI g.matrix c.x c.y)) =
            setN g.matrix c.x.toNat c.y.toNat (slice2 (cellI g.matrix c.x c.y)) :=
          setI_inb _ _ _ _ cb1 cb3
        refine ⟨?_, ?_, rfl, rfl, rfl, rfl, rfl⟩
        · show gridShape (setI g.matrix c.x c.y (slice2 (cellI g.matrix c.x c.y)))
            g.rows g.columns
          rw [hsn]
          exact gridShape_setN _ _ _ hsh
        · show mineTotal (setI g.matrix c.x c.y (slice2 (cellI g.matrix c.x c.y)))
            g.types.mine = _
          rw [hsn]
          apply mineTotal_setN_preserve _ _ _ hsh hxr hyc
          · rw [← hcellN, hck]
            exact hnNe k hk
          · rw [hck]
            exact hsNe k hk
  · have hb : g.revealFirstCell = false := by
      cases hzc : g.revealFirstCell
      · rfl
      · exact absurd hzc hrfc
    rw [revealFirst, hb] at hrun
    simp only [Bool.not_false, if_true, RunRes.ok.injEq, Prod.mk.injEq] at hrun
    obtain ⟨hc, hg⟩ := hrun
    rw [← hg]
    exact ⟨hsh, rfl, rfl, rfl, rfl, rfl, rfl⟩

theorem orDefaultNat_pos (o : Option Nat) (d : Nat) (hd : 0 < d) :
    0 < orDefaultNat o d := by
  cases o with
  | none => exact hd
  | some n =>
    by_cases hn : n = 0
    · rw [orDefaultNat, if_pos hn]
      exact hd
    · rw [orDefaultNat, if_neg hn]
      omega

theorem ofOpts_pos (opts : MinesweeperOpts) (env : Nat → Frac) :
    0 < (Minesweeper.ofOpts opts env).rows ∧
    0 < (Minesweeper.ofOpts opts env).columns ∧
    0 < (Minesweeper.ofOpts opts env).mines :=
  ⟨orDefaultNat_pos _ _ (by omega), orDefaultNat_pos _ _ (by omega),
    orDefaultNat_pos _ _ (by omega)⟩

theorem gridShape_replicate (R C : Nat) (z : Str) :
    gridShape (List.replicate R (List.replicate C z)) R C := by
  refine ⟨by simp, fun r hr => ?_⟩
  rw [List.eq_of_mem_replicate hr]
  simp

theorem start_grid_spec (fuel : Nat) (opts : MinesweeperOpts) (env : Nat → Frac)
    (out : OutVal) (gf : Minesweeper)
    (hdens : 2 * (Minesweeper.ofOpts opts env).mines <
      (Minesweeper.ofOpts opts env).rows * (Minesweeper.ofOpts opts env).columns)
    (hrng : rngOk (Minesweeper.ofOpts opts env))
    (hem : (Minesweeper.ofOpts opts env).emote ∉ numberNames)
    (hrun : start fuel (Minesweeper.ofOpts opts env) = .ok (some out, gf)) :
    gridShape gf.matrix (Minesweeper.ofOpts opts env).rows
      (Minesweeper.ofOpts opts env).columns ∧
    mineTotal gf.matrix (Minesweeper.ofOpts opts env).types.mine =
      (Minesweeper.ofOpts opts env).mines ∧
    ((Minesweeper.ofOpts opts env).returnType = RetType.matrix → out = .grid gf.matrix) := by
  obtain ⟨hR, hC, hM⟩ := ofOpts_pos opts env
  have hty : TypesOk (Minesweeper.ofOpts opts env).types :=
    TypesOk_mkTypes (Minesweeper.ofOpts opts env).spaces
      (Minesweeper.ofOpts opts env).emote hem
  rw [start, if_neg (by omega)] at hrun
  split at hrun
  · exact absurd hrun (by simp)
  · rename_i g1 hpl
    split at hrun
    · exact absurd hrun (by simp)
    · exact absurd hrun (by simp)
    · rename_i cc g3 hrf
      simp only [RunRes.ok.injEq, Prod.mk.injEq, Option.some.injEq] at hrun
      obtain ⟨hout, hgf⟩ := hrun
      have hrngE : rngOk (generateEmptyMatrix (Minesweeper.ofOpts opts env)) := hrng
      have hRE : 0 < (generateEmptyMatrix (Minesweeper.ofOpts opts env)).rows := hR
      have hCE : 0 < (generateEmptyMatrix (Minesweeper.ofOpts opts env)).columns := hC
      have hshE : gridShape (generateEmptyMatrix (Minesweeper.ofOpts opts env)).matrix
          (generateEmptyMatrix (Minesweeper.ofOpts opts env)).rows
          (generateEmptyMatrix (Minesweeper.ofOpts opts env)).columns :=
        gridShape_replicate (Minesweeper.ofOpts opts env).rows
          (Minesweeper.ofOpts opts env).columns
          ((Minesweeper.ofOpts opts env).types.numbers.getD 0 [])
      have hpl2 : plantMinesGo (Minesweeper.ofOpts opts env).mines fuel
          (generateEmptyMatrix (Minesweeper.ofOpts opts env)) = some g1 := hpl
      obtain ⟨M, k, hg1, hshM, hcntM⟩ :=
        plantMinesGo_spec fuel (Minesweeper.ofOpts opts env).mines
          (generateEmptyMatrix (Minesweeper.ofOpts opts env)) g1 hrngE hRE hCE hshE hpl2
      have hrows1 : g1.rows = (Minesweeper.ofOpts opts env).rows := by
        rw [hg1]
        rfl
      have hcols1 : g1.columns = (Minesweeper.ofOpts opts env).columns := by
        rw [hg1]
        rfl
      have htypes1 : g1.types = (Minesweeper.ofOpts opts env).types := by
        rw [hg1]
        rfl
      have hret1 : g1.returnType = (Minesweeper.ofOpts opts env).returnType := by
        rw [hg1]
        rfl
      have hsh1 : gridShape g1.matrix (Minesweeper.ofOpts opts env).rows
          (Minesweeper.ofOpts opts env).columns := by
        rw [hg1]
        exact hshM
      have hsh2 : gridShape g1.matrix g1.rows g1.columns := by
        rw [hrows1, hcols1]
        exact hsh1
      have hty1 : TypesOk g1.types := by
        rw [htypes1]
        exact hty
      have hrng1 : rngOk g1 := by
        rw [hg1]
        exact hrng
      have hsc1 : g1.safeCells = [] := by
        rw [hg1]
        rfl
      have hcntM2 : mineTotal M (Minesweeper.ofOpts opts env).types.mine =
          mineTotal (generateEmptyMatrix (Minesweeper.ofOpts opts env)).matrix
            (Minesweeper.ofOpts opts env).types.mine +
          (Minesweeper.ofOpts opts env).mines := hcntM
      have hne0 : (Minesweeper.ofOpts opts env).types.numbers.getD 0 [] ≠
          (Minesweeper.ofOpts opts env).types.mine := hty.2.2.2.2.1 0 (by omega)
      have h0 : mineTotal (generateEmptyMatrix (Minesweeper.ofOpts opts env)).matrix
          (Minesweeper.ofOpts opts env).types.mine = 0 := mineTotal_replicate hne0
      have hcnt1 : mineTotal g1.matrix g1.types.mine = (Minesweeper.ofOpts opts env).mines := by
        rw [hg1]
        show mineTotal M (Minesweeper.ofOpts opts env).types.mine =
          (Minesweeper.ofOpts opts env).mines
        rw [hcntM2, h0]
        omega
      have hmn1 : ∀ j, j ≤ 8 → g1.types.numbers.getD j [] ≠ g1.types.mine :=
        hty1.2.2.2.2.1
      have hshP : gridShape (populate g1).matrix (populate g1).rows (populate g1).columns :=
        populate_shape g1 hsh2
      have htokP : tokensOnly (populate g1).matrix (populate g1).rows (populate g1).columns
          (populate g1).types := populate_tokensOnly g1 hsh2
      have hisoP : zeroIsolated (populate g1).matrix (populate g1).rows (populate g1).columns
          (populate g1).types := populate_zeroIsolated g1 hsh2 hty1
      have hsafeP : ∀ s ∈ (populate g1).safeCells,
          (0 ≤ s.x ∧ s.x < ((populate g1).rows : Int) ∧ 0 ≤ s.y ∧
            s.y < ((populate g1).columns : Int)) ∧
          ∃ j, j ≤ 8 ∧ cellI (populate g1).matrix s.x s.y =
            (populate g1).types.numbers.getD j [] :=
        populate_safeCells g1 hsh2 hsc1
      obtain ⟨hShp, hTot, _, _, _, hRt, _⟩ :=
        revealFirst_preserves fuel (populate g1) cc g3 hshP hty1 htokP hisoP hsafeP hrng1 hrf
      have hPt : mineTotal (populate g1).matrix g1.types.mine =
          mineTotal g1.matrix g1.types.mine := populate_mineTotal g1 hsh2 hmn1
      have hTot2 : mineTotal g3.matrix g1.types.mine =
          mineTotal (populate g1).matrix g1.types.mine := hTot
      have hchain : mineTotal g3.matrix g1.types.mine = (Minesweeper.ofOpts opts env).mines := by
        rw [hTot2, hPt, hcnt1]
      have hShp2 : gridShape g3.matrix g1.rows g1.columns := hShp
      refine ⟨?_, ?_, ?_⟩
      · rw [← hgf]
        rw [hrows1, hcols1] at hShp2
        exact hShp2
      · rw [← hgf, ← htypes1]
        exact hchain
      · intro hrt
        have hRt2 : g3.returnType = g1.returnType := hRt
        have h3 : g3.returnType = RetType.matrix := by rw [hRt2, hret1, hrt]
        rw [← hgf]
        rw [h3] at hout
        exact hout.symm
/-- C1: counterexample.  The configuration `optsEmoteOne` (2×2 grid, one
mine, custom emote `"one"`) satisfies every hypothesis of the claim —
positive sizes, density `rows*columns > 2*mines`, a random source inside
`[0,1)` — yet the grid produced by `start()` holds the mine marker in 4
cells while `mines = 1`: the marker for a mine collides with the count
token for one adjacent mine, so cell counts masquerade as mines. -/
theorem C1_counterexample :
    rngOk (Minesweeper.ofOpts optsEmoteOne halfRng) ∧
    0 < (Minesweeper.ofOpts optsEmoteOne halfRng).rows ∧
    0 < (Minesweeper.ofOpts optsEmoteOne halfRng).columns ∧
    0 < (Minesweeper.ofOpts optsEmoteOne halfRng).mines ∧
    2 * (Minesweeper.ofOpts optsEmoteOne halfRng).mines <
      (Minesweeper.ofOpts optsEmoteOne halfRng).rows *
      (Minesweeper.ofOpts optsEmoteOne halfRng).columns ∧
    ∃ out gf, start 10 (Minesweeper.ofOpts optsEmoteOne halfRng) =
        RunRes.ok (some out, gf) ∧
      gridShape gf.matrix 2 2 ∧
      (Minesweeper.ofOpts optsEmoteOne halfRng).mines = 1 ∧
      mineTotal gf.matrix (Minesweeper.ofOpts optsEmoteOne halfRng).types.mine = 4 := by
  refine ⟨fun i => Nat.one_lt_two, by decide, by decide, by decide, by decide, ?_⟩
  exact ⟨_, _, rfl, ⟨by decide, by decide⟩, by decide, by decide⟩

/-- C1 (amended): for every configuration whose density satisfies
`rows * columns > 2 * mines`, whose random source stays in `[0,1)`, and
whose mine emote is none of the nine count-token names, whenever `start()`
terminates normally with a value, the final grid has exactly `rows` rows of
`columns` cells each and exactly `mines` cells holding the mine marker, and
with the `matrix` return type the returned value is that grid. -/
theorem C1_mine_count_amended (fuel : Nat) (opts : MinesweeperOpts) (env : Nat → Frac)
    (out : OutVal) (gf : Minesweeper)
    (hdens : 2 * (Minesweeper.ofOpts opts env).mines <
      (Minesweeper.ofOpts opts env).rows * (Minesweeper.ofOpts opts env).columns)
    (hrng : rngOk (Minesweeper.ofOpts opts env))
    (hem : (Minesweeper.ofOpts opts env).emote ∉ numberNames)
    (hrun : start fuel (Minesweeper.ofOpts opts env) = .ok (some out, gf)) :
    gridShape gf.matrix (Minesweeper.ofOpts opts env).rows
      (Minesweeper.ofOpts opts env).columns ∧
    mineTotal gf.matrix (Minesweeper.ofOpts opts env).types.mine =
      (Minesweeper.ofOpts opts env).mines ∧
    ((Minesweeper.ofOpts opts env).returnType = RetType.matrix → out = .grid gf.matrix) :=
  start_grid_spec fuel opts env out gf hdens hrng hem hrun

/-- Witness for C1 (amended): the 2×2 one-mine configuration `optsSmall`
with the constant-half random stream runs to completion and the amended
claim holds of its output. -/
theorem C1_mine_count_amended_witness :
    ∃ out gf, start 10 (Minesweeper.ofOpts optsSmall halfRng) = RunRes.ok (some out, gf) ∧
      gridShape gf.matrix (Minesweeper.ofOpts optsSmall halfRng).rows
        (Minesweeper.ofOpts optsSmall halfRng).columns ∧
      mineTotal gf.matrix (Minesweeper.ofOpts optsSmall halfRng).types.mine =
        (Minesweeper.ofOpts optsSmall halfRng).mines := by
  have h := C1_mine_count_amended 10 optsSmall halfRng _ _ (by decide)
    (fun i => Nat.one_lt_two) (by decide) rfl
  exact ⟨_, _, rfl, h.1, h.2.1⟩

theorem foldl_exec_none (fuel : Nat) (cs : List SafeCell) :
    List.foldl (fun acc c2 =>
      match acc with
      | none => none
      | some g2 => revealSurrExec fuel g2 c2 true) none cs = none := by
  induction cs with
  | nil => rfl
  | cons c rest ih => exact ih

theorem revealSurrExec_eq : ∀ (fuel : Nat) (g : Minesweeper) (c : SafeCell) (b : Bool),
    revealSurrExec fuel g c b = revealSurroundings fuel g c b := by
  intro fuel
  induction fuel with
  | zero =>
    intro g c b
    rw [revealSurroundings]
    rfl
  | succ n ih =>
    have hlist : ∀ (cs : List SafeCell) (g2 : Minesweeper),
        List.foldl (fun acc c2 =>
          match acc with
          | none => none
          | some g3 => revealSurrExec n g3 c2 true) (some g2) cs =
        revealSurrList n g2 cs := by
      intro cs
      induction cs with
      | nil =>
        intro g2
        rw [revealSurrList]
        rfl
      | cons c2 rest ih2 =>
        intro g2
        rw [revealSurrList]
        show List.foldl (fun acc cc =>
            match acc with
            | none => none
            | some g3 => revealSurrExec n g3 cc true) (revealSurrExec n g2 c2 true) rest =
          match revealSurroundings n g2 c2 true with
          | none => none
          | some g3 => revealSurrList n g3 rest
        rw [ih g2 c2 true]
        cases hx : revealSurroundings n g2 c2 true with
        | none => exact foldl_exec_none n rest
        | some g3 => exact ih2 g3
    intro g c b
    rw [revealSurroundings]
    cases b with
    | false => rfl
    | true => exact hlist (sweepGo g (boxPairs g c)).2 (sweepGo g (boxPairs g c)).1

theorem revealFirstExec_eq (fuel : Nat) (g : Minesweeper) :
    revealFirstExec fuel g = revealFirst fuel g := by
  rw [revealFirst, revealFirstExec]
  simp only [revealSurrExec_eq]

/-- C3: with first-cell reveal on, the zero guarantee on and at least one
zero cell among the safe cells, `revealFirst()` picks an origin whose
symbol is the zero token and, when it returns normally, a cell of the grid
is unmasked (carries no spoiler bars) exactly when it lies in the reveal
target of the origin: the zero region reachable from the origin by
Chebyshev-distance-1 steps through zero cells together with every cell
adjacent to that region. -/
theorem C3_zero_flood_reveal (fuel : Nat) (g : Minesweeper) (c : SafeCell)
    (g2 : Minesweeper)
    (hsh : gridShape g.matrix g.rows g.columns)
    (hty : TypesOk g.types)
    (htok : tokensOnly g.matrix g.rows g.columns g.types)
    (hiso : zeroIsolated g.matrix g.rows g.columns g.types)
    (hrfc : g.revealFirstCell = true)
    (hzfc : g.zeroFirstCell = true)
    (hsafe : ∀ s ∈ g.safeCells, 0 ≤ s.x ∧ s.x < (g.rows : Int) ∧ 0 ≤ s.y ∧
      s.y < (g.columns : Int))
    (hzne : g.safeCells.filter
      (fun s => cellI g.matrix s.x s.y = g.types.numbers.getD 0 []) ≠ [])
    (hrng : rngOk g)
    (hrun : revealFirst fuel g = .ok (c, g2)) :
    cellI g.matrix c.x c.y = g.types.numbers.getD 0 [] ∧
    gridShape g2.matrix g.rows g.columns ∧
    ∀ x y, x < g.rows → y < g.columns →
      (hasBars (cellN g2.matrix x y) = false ↔
        revealTarget g.matrix g.rows g.columns (g.types.numbers.getD 0 [])
          (c.x.toNat, c.y.toNat) (x, y)) := by
  obtain ⟨hb, hcz, B2, hEq, hInv, hIff⟩ :=
    revealFirst_zero_spec fuel g c g2 hsh hty htok hiso hrfc hzfc hsafe hzne hrng hrun
  obtain ⟨hbM, hbNum, hbStr, hsNe, hnNe, hinj⟩ := hty
  obtain ⟨h1, h2⟩ := gridShape_getD hsh
  refine ⟨hcz, ?_, ?_⟩
  · rw [hEq]
    exact stripB_shape B2 hsh
  · intro x y hx hy
    have hxm : x < g.matrix.length := by omega
    have hym : y < (g.matrix.getD x []).length := by
      have := h2 x hx
      omega
    have hcell : cellN g2.matrix x y =
        if B2 x y then slice2 (cellN g.matrix x y) else cellN g.matrix x y := by
      rw [hEq]
      exact cellN_stripB B2 x y hxm hym
    constructor
    · intro hnb
      cases hB : B2 x y with
      | true => exact (hIff x y hx hy).mp hB
      | false =>
        rw [hcell, if_neg (by rw [hB]; simp)] at hnb
        rcases htok x y hx hy with hm | ⟨k, hk, hkEq⟩
        · rw [hm, hbM] at hnb
          exact absurd hnb (by simp)
        · rw [hkEq, hbNum k hk] at hnb
          exact absurd hnb (by simp)
    · intro ht
      have hB : B2 x y = true := (hIff x y hx hy).mpr ht
      rw [hcell, if_pos hB]
      have hnm : cellN g.matrix x y ≠ g.types.mine := (hInv x y hB).2.2
      rcases htok x y hx hy with hm | ⟨k, hk, hkEq⟩
      · exact absurd hm hnm
      · rw [hkEq]
        exact hbStr k hk

/-- Witness for C3: on the populated corner-mine 3×3 instance the reveal
runs to completion, the chosen origin holds the zero token, and the
unmasked set is exactly the reveal target. -/
theorem C3_zero_flood_reveal_witness :
    ∃ c g2, revealFirst 20 (populate gC3) = RunRes.ok (c, g2) ∧
      cellI (populate gC3).matrix c.x c.y = (populate gC3).types.numbers.getD 0 [] ∧
      ∀ x y, x < (populate gC3).rows → y < (populate gC3).columns →
        (hasBars (cellN g2.matrix x y) = false ↔
          revealTarget (populate gC3).matrix (populate gC3).rows (populate gC3).columns
            ((populate gC3).types.numbers.getD 0 []) (c.x.toNat, c.y.toNat) (x, y)) := by
  have hsh0 : gridShape gC3.matrix gC3.rows gC3.columns := ⟨by decide, by decide⟩
  have hty0 : TypesOk gC3.types := TypesOk_mkTypes true (strLit "boom") (by decide)
  have h := C3_zero_flood_reveal 20 (populate gC3) _ _
    (populate_shape gC3 hsh0)
    hty0
    (populate_tokensOnly gC3 hsh0)
    (populate_zeroIsolated gC3 hsh0 hty0)
    rfl rfl
    (fun s hs => (populate_safeCells gC3 hsh0 rfl s hs).1)
    (by decide)
    (fun i => Nat.zero_lt_one)
    ((revealFirstExec_eq 20 (populate gC3)).symm.trans rfl)
  exact ⟨_, _, (revealFirstExec_eq 20 (populate gC3)).symm.trans rfl, h.1, h.2.2⟩

/-- C7: with first-cell reveal on and the zero branch not taken (the zero
guarantee is off or no zero cell exists among the safe cells), if the safe
cells are non-empty then `revealFirst()` unmasks exactly one cell: the
revealed cell is in bounds and holds a non-mine value, and a cell of the
grid carries no spoiler bars afterwards exactly when it is the revealed
cell. -/
theorem C7_single_reveal (fuel : Nat) (g : Minesweeper) (c : SafeCell)
    (g2 : Minesweeper)
    (hsh : gridShape g.matrix g.rows g.columns)
    (hty : TypesOk g.types)
    (htok : tokensOnly g.matrix g.rows g.columns g.types)
    (hsafe : ∀ s ∈ g.safeCells,
      (0 ≤ s.x ∧ s.x < (g.rows : Int) ∧ 0 ≤ s.y ∧ s.y < (g.columns : Int)) ∧
      ∃ k, k ≤ 8 ∧ cellI g.matrix s.x s.y = g.types.numbers.getD k [])
    (hrfc : g.revealFirstCell = true)
    (hzf : g.zeroFirstCell = false ∨
      g.safeCells.filter
        (fun s => cellI g.matrix s.x s.y = g.types.numbers.getD 0 []) = [])
    (hne : g.safeCells ≠ [])
    (hrng : rngOk g)
    (hrun : revealFirst fuel g = .ok (c, g2)) :
    (0 ≤ c.x ∧ c.x < (g.rows : Int) ∧ 0 ≤ c.y ∧ c.y < (g.columns : Int)) ∧
    cellI g2.matrix c.x c.y ≠ g.types.mine ∧
    ∀ x y, x < g.rows → y < g.columns →
      (hasBars (cellN g2.matrix x y) = false ↔ (x = c.x.toNat ∧ y = c.y.toNat)) := by
  obtain ⟨hcmem, hg2⟩ := revealFirst_else_spec fuel g c g2 hrfc hzf hne hrng hrun
  obtain ⟨hbb, k, hk, hcell⟩ := hsafe c hcmem
  obtain ⟨hx0, hxR, hy0, hyC⟩ := hbb
  obtain ⟨hbM, hbNum, hbStr, hsNe, hnNe, hinj⟩ := hty
  have hcx : c.x.toNat < g.rows := by omega
  have hcy : c.y.toNat < g.columns := by omega
  have hcc : cellN g.matrix c.x.toNat c.y.toNat = g.types.numbers.getD k [] := by
    rw [← cellI_inb g.matrix c.x c.y hx0 hy0]
    exact hcell
  have hset : g2.matrix =
      setN g.matrix c.x.toNat c.y.toNat (slice2 (cellN g.matrix c.x.toNat c.y.toNat)) := by
    rw [hg2]
    show setI g.matrix c.x c.y (slice2 (cellI g.matrix c.x c.y)) = _
    rw [setI_inb g.matrix c.x c.y _ hx0 hy0, cellI_inb g.matrix c.x c.y hx0 hy0]
  refine ⟨⟨hx0, hxR, hy0, hyC⟩, ?_, ?_⟩
  · rw [cellI_inb g2.matrix c.x c.y hx0 hy0, hset,
      cellN_setN_same _ _ _ hsh hcx hcy, hcc]
    exact hsNe k hk
  · intro x y hx hy
    by_cases hxy : x = c.x.toNat ∧ y = c.y.toNat
    · obtain ⟨hx1, hy1⟩ := hxy
      subst hx1
      subst hy1
      rw [hset, cellN_setN_same _ _ _ hsh hcx hcy, hcc]
      exact ⟨fun _ => ⟨rfl, rfl⟩, fun _ => hbStr k hk⟩
    · have hne2 : c.x.toNat ≠ x ∨ c.y.toNat ≠ y := by omega
      rw [hset, cellN_setN_ne _ _ _ _ _ hne2]
      constructor
      · intro hnb
        exfalso
        rcases htok x y hx hy with hm | ⟨j, hj, hjEq⟩
        · rw [hm, hbM] at hnb
          exact absurd hnb (by simp)
        · rw [hjEq, hbNum j hj] at hnb
          exact absurd hnb (by simp)
      · intro hc2
        exact absurd hc2 hxy

/-- Witness for C7: on the populated corner-mine 3×3 instance with the zero
guarantee turned off, the reveal unmasks exactly one non-mine cell. -/
theorem C7_single_reveal_witness :
    ∃ c g2, revealFirst 20 (populate gC7) = RunRes.ok (c, g2) ∧
      cellI g2.matrix c.x c.y ≠ (populate gC7).types.mine ∧
      ∀ x y, x < (populate gC7).rows → y < (populate gC7).columns →
        (hasBars (cellN g2.matrix x y) = false ↔ (x = c.x.toNat ∧ y = c.y.toNat)) := by
  have hsh0 : gridShape gC7.matrix gC7.rows gC7.columns := ⟨by decide, by decide⟩
  have hty0 : TypesOk gC7.types := TypesOk_mkTypes true (strLit "boom") (by decide)
  have h := C7_single_reveal 20 (populate gC7) _ _
    (populate_shape gC7 hsh0) hty0 (populate_tokensOnly gC7 hsh0)
    (populate_safeCells gC7 hsh0 rfl)
    rfl (Or.inl rfl) (by decide) (fun i => Nat.zero_lt_one) rfl
  exact ⟨_, _, rfl, h.2.1, h.2.2⟩
